import Mathlib

/-! Verification development for the COVID-19 global data tracker notebook
(`COVID19_Global_Data_Tracker.ipynb`).  The cleaning pipeline of the notebook
is embedded shallowly: pandas tables become lists of records, numeric cells
become `Option ℚ` (with `none` playing the role of NaN / a missing value),
and each pandas operation of the cleaning cell (melt, merge, isin-filter,
fillna, sort_values, groupby-diff, column arithmetic, replace) becomes an
executable Lean function with the same semantics on these lists.
-/

namespace Covid

/-- A numeric cell as pandas reads it from CSV: a finite rational or NaN
(missing), the latter modelled as `none`. -/
abbrev Cell := Option ℚ

/-! Wide JHU tables and the wide-to-long reshaper (`reshape_jhu`) -/

/-- One row of a wide JHU time-series table: the four identifier columns
`Province/State` (nullable), `Country/Region`, `Lat`, `Long`, followed by one
numeric cell per date column. -/
structure WideRow where
  prov : Option String
  country : String
  lat : Cell
  lng : Cell
  cells : List Cell
  deriving DecidableEq

/-- A wide JHU table: the headers of the date columns (`df.columns[4:]`) and
the data rows. -/
structure WideTable where
  dates : List String
  rows : List WideRow
  deriving DecidableEq

/-- A record of the melted (long) frame produced by `pd.melt`: the four
identifier columns preserved as-is, the originating column header in `date`,
and the cell value. -/
structure MeltRec where
  prov : Option String
  country : String
  lat : Cell
  lng : Cell
  date : String
  value : Cell
  deriving DecidableEq

/-- The identifier-column tuple of a wide row. -/
def WideRow.idTup (r : WideRow) : Option String × String × Cell × Cell :=
  (r.prov, r.country, r.lat, r.lng)

/-- The identifier-column tuple carried by a melted record. -/
def MeltRec.idTup (r : MeltRec) : Option String × String × Cell × Cell :=
  (r.prov, r.country, r.lat, r.lng)

/-- Column-major worker for `pd.melt`: for each date column (tracking its
positional index into each row's cell list) emit one record per row. -/
def meltAux (rows : List WideRow) : List String → ℕ → List MeltRec
  | [], _ => []
  | d :: ds, i =>
      rows.map (fun r => ⟨r.prov, r.country, r.lat, r.lng, d, r.cells.getD i none⟩)
        ++ meltAux rows ds (i + 1)

/-- Function `reshape_jhu`: `pd.melt(df, id_vars=['Province/State','Country/Region',
'Lat','Long'], value_vars=df.columns[4:], var_name='date')` — one long record
per (date column, row) pair, identifier columns preserved unchanged. -/
def reshapeJhu (t : WideTable) : List MeltRec :=
  meltAux t.rows t.dates 0

/-- The spec's error taxonomy for the reshaper stage. -/
inductive ReshapeError where
  | malformedSchedule
  | emptyTable
  deriving DecidableEq

/-- A melted record whose `date` header has been parsed to a calendar date
(dates are abstracted as naturals). -/
structure LongRec where
  prov : Option String
  country : String
  lat : Cell
  lng : Cell
  date : ℕ
  value : Cell
  deriving DecidableEq

/-- Parse the `date` column of a melted frame record by record, as
`pd.to_datetime(df['date'])` does; the whole conversion fails as soon as one
entry is unparseable. -/
def parseRecs (p : String → Option ℕ) : List MeltRec → Option (List LongRec)
  | [] => some []
  | r :: rest =>
      match p r.date with
      | none => none
      | some d =>
          match parseRecs p rest with
          | none => none
          | some l => some (⟨r.prov, r.country, r.lat, r.lng, d, r.value⟩ :: l)

/-- The reshaper stage of the notebook: `reshape_jhu` followed by
`pd.to_datetime` on the `date` column.  The date grammar itself lives in the
pandas library, so it is a parameter `p`; an unparseable entry aborts the
conversion, which the spec calls `MalformedScheduleError`. -/
def reshapeParse (p : String → Option ℕ) (t : WideTable) :
    Except ReshapeError (List LongRec) :=
  match parseRecs p (reshapeJhu t) with
  | none => .error .malformedSchedule
  | some l => .ok l

/-- A simple concrete date parser usable to instantiate `reshapeParse`: a
nonempty all-digit header parses to its numeral, anything else fails. -/
def parseDigits (s : String) : Option ℕ :=
  if s.data ≠ [] ∧ s.data.all (fun c => c.isDigit) then
    some (s.data.foldl (fun n c => 10 * n + (c.toNat - 48)) 0)
  else none

/-- First-occurrence deduplication with an explicit accumulator of
already-seen elements. -/
def dedupAux {α : Type} [DecidableEq α] (seen : List α) : List α → List α
  | [] => []
  | a :: l => if a ∈ seen then dedupAux seen l else a :: dedupAux (a :: seen) l

/-- Deduplicate a list keeping the first occurrence of each element, in
order of first appearance. -/
def dedupKeep {α : Type} [DecidableEq α] (l : List α) : List α :=
  dedupAux [] l

/-- Modelled from the spec: the re-widening direction of the round-trip law
(§8) has no counterpart in the notebook, so it is reconstructed from the
spec's words — group the long records by their identifier tuple (in order of
first appearance), take the distinct date headers as columns (in order of
first appearance), and read each cell back off the record with that
identifier and date. -/
def widen (recs : List MeltRec) : WideTable :=
  let ds := dedupKeep (recs.map (fun r => r.date))
  let ids := dedupKeep (recs.map MeltRec.idTup)
  { dates := ds
    rows := ids.map (fun idt =>
      { prov := idt.1
        country := idt.2.1
        lat := idt.2.2.1
        lng := idt.2.2.2
        cells := ds.map (fun d =>
          match recs.find? (fun r => decide (r.idTup = idt ∧ r.date = d)) with
          | some r => r.value
          | none => none) }) }

/-! Long cumulative records and the merge pipeline of the cleaning cell -/

/-- A row of one of the projected long frames
`df_*_long[['Country/Region', 'date', <metric>]]`. -/
structure CDRec where
  country : String
  date : ℕ
  value : Cell
  deriving DecidableEq

/-- The projection `df[['Country/Region', 'date', <metric>]]` applied to a
parsed long frame. -/
def longToCD (ls : List LongRec) : List CDRec :=
  ls.map (fun l => ⟨l.country, l.date, l.value⟩)

/-- Inner merge in pandas row order: every left row, paired with every right
row whose key matches, left rows with no match dropped
(`merge(..., on=[...])`, the default `how='inner'`). -/
def innerJoin {α β γ : Type} (xs : List α) (ys : List β)
    (keyMatch : α → β → Bool) (both : α → β → γ) : List γ :=
  xs.flatMap (fun x => (ys.filter (keyMatch x)).map (both x))

/-- Left merge in pandas row order: every left row is kept; it is paired with
every matching right row, or emitted once with the right-hand columns unset
when no right row matches (`merge(..., how='left')`). -/
def leftJoin {α β γ : Type} (xs : List α) (ys : List β)
    (keyMatch : α → β → Bool) (both : α → β → γ) (noMatch : α → γ) : List γ :=
  xs.flatMap (fun x =>
    let ms := ys.filter (keyMatch x)
    if ms.isEmpty then [noMatch x] else ms.map (both x))

/-- A row of `df_jhu`, the three-way merged cumulative frame. -/
structure JhuRow where
  country : String
  date : ℕ
  cases : Cell
  deaths : Cell
  recovered : Cell
  deriving DecidableEq

/-- Frame `df_jhu`: inner merge of confirmed and deaths on
`['Country/Region', 'date']`, then left merge of recovered on the same key. -/
def dfJhu (confirmed deaths recovered : List CDRec) : List JhuRow :=
  leftJoin
    (innerJoin confirmed deaths
      (fun c d => decide (d.country = c.country ∧ d.date = c.date))
      (fun c d => (c, d)))
    recovered
    (fun cd r => decide (r.country = cd.1.country ∧ r.date = cd.1.date))
    (fun cd r => ⟨cd.1.country, cd.1.date, cd.1.value, cd.2.value, r.value⟩)
    (fun cd => ⟨cd.1.country, cd.1.date, cd.1.value, cd.2.value, none⟩)

/-- Constant `default_countries = ['Kenya', 'United States', 'India']`. -/
def defaultCountries : List String :=
  ["Kenya", "United States", "India"]

/-- Alias map `jhu_to_owid = {'US': 'United States'}` read through `dict.get(c, c)`:
the alias map applied with identity fallback. -/
def jhuToOwid (c : String) : String :=
  if c = "US" then "United States" else c

/-- Python's `str.split(',')` over the character list of the input: split at
every comma, keeping empty pieces. -/
def pySplitComma : List Char → List Char → List (List Char)
  | [], acc => [acc.reverse]
  | c :: rest, acc =>
      if c = ',' then acc.reverse :: pySplitComma rest []
      else pySplitComma rest (c :: acc)

/-- The (ASCII) whitespace characters removed by Python's `str.strip()`. -/
def isPySpace (c : Char) : Bool :=
  decide (c.toNat = 32 ∨ c.toNat = 9 ∨ c.toNat = 10 ∨ c.toNat = 13
    ∨ c.toNat = 11 ∨ c.toNat = 12)

/-- Python's `str.strip()`: drop leading and trailing whitespace. -/
def pyStrip (s : List Char) : List Char :=
  ((s.dropWhile isPySpace).reverse.dropWhile isPySpace).reverse

/-- The country-selection contract of the notebook:
`countries = [c.strip() for c in user_input.split(',')] if user_input else
default_countries` — an empty input string falls back to the default set,
anything else is split on commas and stripped. -/
def chooseCountries (userInput : String) : List String :=
  if userInput = "" then defaultCountries
  else (pySplitComma userInput.data []).map (fun cs => ⟨pyStrip cs⟩)

/-- Translation `countries_jhu = [jhu_to_owid.get(c, c) for c in countries]`: the
selection translated into the rate-source (OWID) vocabulary. -/
def countriesJhu (countries : List String) : List String :=
  countries.map (fun c => jhuToOwid c)

/-- Filter `df_jhu_filtered = df_jhu[df_jhu['Country/Region'].isin(countries_jhu)]`. -/
def dfJhuFiltered (confirmed deaths recovered : List CDRec)
    (countries : List String) : List JhuRow :=
  (dfJhu confirmed deaths recovered).filter
    (fun row => decide (row.country ∈ countriesJhu countries))

/-- A `df_jhu_filtered` row after the cumulative fill pass: the three
cumulative columns are now always set. -/
structure JhuRowF where
  country : String
  date : ℕ
  totalCases : ℚ
  totalDeaths : ℚ
  totalRecovered : ℚ
  deriving DecidableEq

/-- Fill pass `df_jhu_filtered.fillna({'total_cases': 0, 'total_deaths': 0,
'total_recovered': 0})`: each missing cumulative cell becomes zero. -/
def fillnaJhu (t : List JhuRow) : List JhuRowF :=
  t.map (fun r => ⟨r.country, r.date, r.cases.getD 0, r.deaths.getD 0, r.recovered.getD 0⟩)

/-- The sort key of `sort_values(['Country/Region', 'date'])`:
lexicographic on (country string, date). -/
def jhuKey (r : JhuRowF) : Lex (List Char × ℕ) :=
  toLex (r.country.data, r.date)

/-- The row ordering used by the sort. -/
def jhuLe (a b : JhuRowF) : Prop :=
  jhuKey a ≤ jhuKey b

instance : DecidableRel jhuLe :=
  fun a b => inferInstanceAs (Decidable (jhuKey a ≤ jhuKey b))

instance : IsTotal JhuRowF jhuLe :=
  ⟨fun a b => le_total (jhuKey a) (jhuKey b)⟩

instance : IsTrans JhuRowF jhuLe :=
  ⟨fun _ _ _ hab hbc => le_trans hab hbc⟩

/-- Sort `df_jhu_filtered.sort_values(['Country/Region', 'date'])`. -/
def sortJhu (t : List JhuRowF) : List JhuRowF :=
  t.insertionSort jhuLe

/-- A cumulative row extended with the two daily-delta columns. -/
structure JhuRowD where
  country : String
  date : ℕ
  totalCases : ℚ
  totalDeaths : ℚ
  totalRecovered : ℚ
  newCases : ℚ
  newDeaths : ℚ
  deriving DecidableEq

/-- Deltas `groupby('Country/Region')['total_cases'].diff().fillna(0)` (and the same
for deaths) over the frame sorted by (country, date): each row's delta is its
value minus the previous row's value when that row belongs to the same
country group, and zero at the first row of a group (the NaN produced by
`diff` there, filled with 0).  The accumulator carries the previous row's
country and cumulative values. -/
def addDiff : Option (String × ℚ × ℚ) → List JhuRowF → List JhuRowD
  | _, [] => []
  | prev, r :: rest =>
      let nc : ℚ :=
        match prev with
        | some (c, pc, _) => if c = r.country then r.totalCases - pc else 0
        | none => 0
      let nd : ℚ :=
        match prev with
        | some (c, _, pd) => if c = r.country then r.totalDeaths - pd else 0
        | none => 0
      ⟨r.country, r.date, r.totalCases, r.totalDeaths, r.totalRecovered, nc, nd⟩
        :: addDiff (some (r.country, r.totalCases, r.totalDeaths)) rest

/-- A delta row extended with the `death_rate` column. -/
structure JhuRowE where
  country : String
  date : ℕ
  totalCases : ℚ
  totalDeaths : ℚ
  totalRecovered : ℚ
  newCases : ℚ
  newDeaths : ℚ
  deathRate : ℚ
  deriving DecidableEq

/-- Column `death_rate = total_deaths / total_cases.replace(0, 1)`: the denominator
is the cases column with zeros substituted by one. -/
def addDeathRate (t : List JhuRowD) : List JhuRowE :=
  t.map (fun r =>
    ⟨r.country, r.date, r.totalCases, r.totalDeaths, r.totalRecovered,
      r.newCases, r.newDeaths,
      r.totalDeaths / (if r.totalCases = 0 then 1 else r.totalCases)⟩)

/-- The fully processed cumulative frame: filter, fill, sort, daily deltas,
death rate — the state of `df_jhu_filtered` just before the final merge. -/
def processedJhu (confirmed deaths recovered : List CDRec) (userInput : String) :
    List JhuRowE :=
  addDeathRate (addDiff none (sortJhu (fillnaJhu
    (dfJhuFiltered confirmed deaths recovered (chooseCountries userInput)))))

/-! The OWID rate source -/

/-- A row of the projected OWID frame
`df_owid[['location','date','total_vaccinations','people_fully_vaccinated',
'population','iso_code']]`. -/
structure OwidRec where
  location : String
  date : ℕ
  totalVaccinations : Cell
  peopleFullyVaccinated : Cell
  population : Cell
  isoCode : Option String
  deriving DecidableEq

/-- Filter `df_owid_filtered = df_owid[df_owid['location'].isin(countries)]` — note
the untranslated selection list is used on this side. -/
def dfOwidFiltered (owid : List OwidRec) (countries : List String) : List OwidRec :=
  owid.filter (fun r => decide (r.location ∈ countries))

/-- An OWID row after `fillna({'total_vaccinations': 0,
'people_fully_vaccinated': 0})`: those two columns are now always set, while
`population` keeps its gaps. -/
structure OwidRowF where
  location : String
  date : ℕ
  totalVaccinations : ℚ
  peopleFullyVaccinated : ℚ
  population : Cell
  isoCode : Option String
  deriving DecidableEq

/-- The OWID fill pass: zero-fill the two vaccination columns only. -/
def fillnaOwid (t : List OwidRec) : List OwidRowF :=
  t.map (fun r =>
    ⟨r.location, r.date, r.totalVaccinations.getD 0, r.peopleFullyVaccinated.getD 0,
      r.population, r.isoCode⟩)

/-- A float value as produced by pandas column arithmetic: NaN, one of the two
infinities, or a finite number. -/
inductive FVal where
  | nan
  | pinf
  | ninf
  | num (q : ℚ)
  deriving DecidableEq

/-- Value of `(people_fully_vaccinated / population) * 100` under IEEE float
semantics: a NaN operand propagates, division of a nonzero numerator by zero
gives a signed infinity, `0 / 0` gives NaN, and otherwise the arithmetic is
exact. -/
def vaccRateVal (people : ℚ) (pop : Cell) : FVal :=
  match pop with
  | none => .nan
  | some p =>
      if p = 0 then
        if people = 0 then .nan else if 0 < people then .pinf else .ninf
      else .num (people / p * 100)

/-- An OWID row extended with the `vaccination_rate` column. -/
structure OwidRowV where
  location : String
  date : ℕ
  totalVaccinations : ℚ
  peopleFullyVaccinated : ℚ
  population : Cell
  isoCode : Option String
  vaccinationRate : FVal
  deriving DecidableEq

/-- Column `vaccination_rate = (people_fully_vaccinated / population) * 100`. -/
def addVaccinationRate (t : List OwidRowF) : List OwidRowV :=
  t.map (fun r =>
    ⟨r.location, r.date, r.totalVaccinations, r.peopleFullyVaccinated,
      r.population, r.isoCode, vaccRateVal r.peopleFullyVaccinated r.population⟩)

/-! The final merge -/

/-- Replacement `df_jhu_filtered['Country/Region'].replace(jhu_to_owid)`: rewrite each
country key through the alias map. -/
def replaceCountries (t : List JhuRowE) : List JhuRowE :=
  t.map (fun r => { r with country := jhuToOwid r.country })

/-- A row of the final combined panel.  Columns joined in from the rate
source are options: `none` is the NaN a left merge leaves behind when no
rate-source row matched. -/
structure PanelRow where
  country : String
  date : ℕ
  totalCases : ℚ
  totalDeaths : ℚ
  totalRecovered : ℚ
  newCases : ℚ
  newDeaths : ℚ
  deathRate : ℚ
  totalVaccinations : Option ℚ
  peopleFullyVaccinated : Option ℚ
  population : Cell
  isoCode : Option String
  vaccinationRate : Option FVal
  deriving DecidableEq

/-- Frame `df_combined`: the processed cumulative frame (country keys rewritten by
the alias map) left-merged with the processed OWID frame on
(country = location, date); the `location` column is dropped. -/
def dfCombined (confirmed deaths recovered : List CDRec) (owid : List OwidRec)
    (userInput : String) : List PanelRow :=
  leftJoin
    (replaceCountries (processedJhu confirmed deaths recovered userInput))
    (addVaccinationRate (fillnaOwid (dfOwidFiltered owid (chooseCountries userInput))))
    (fun j o => decide (o.location = j.country ∧ o.date = j.date))
    (fun j o =>
      ⟨j.country, j.date, j.totalCases, j.totalDeaths, j.totalRecovered,
        j.newCases, j.newDeaths, j.deathRate,
        some o.totalVaccinations, some o.peopleFullyVaccinated,
        o.population, o.isoCode, some o.vaccinationRate⟩)
    (fun j =>
      ⟨j.country, j.date, j.totalCases, j.totalDeaths, j.totalRecovered,
        j.newCases, j.newDeaths, j.deathRate,
        none, none, none, none, none⟩)

/-- The observable outcome of one run of the cleaning pipeline: the combined
panel together with the warnings the run raised.  The notebook's selection
and filtering code contains no warning mechanism of any kind — no branch
inspects the post-filter row count — so a faithful run raises no warnings. -/
structure RunResult where
  panel : List PanelRow
  warnings : List String
  deriving DecidableEq

/-- One full run of the cleaning pipeline on materialized inputs. -/
def runTracker (confirmed deaths recovered : List CDRec) (owid : List OwidRec)
    (userInput : String) : RunResult :=
  ⟨dfCombined confirmed deaths recovered owid userInput, []⟩

/-- The from-wide composition used by the notebook: reshape and date-parse the
three wide sources, project each to `['Country/Region','date',<metric>]`, and
run the merge pipeline; `none` when a reshape fails. -/
def runFromWide (p : String → Option ℕ) (wc wd wr : WideTable)
    (owid : List OwidRec) (userInput : String) : Option (List PanelRow) :=
  match reshapeParse p wc, reshapeParse p wd, reshapeParse p wr with
  | .ok lc, .ok ld, .ok lr =>
      some (dfCombined (longToCD lc) (longToCD ld) (longToCD lr) owid userInput)
  | _, _, _ => none

/-- The (country, date) key of a long cumulative record. -/
def CDRec.pair (r : CDRec) : String × ℕ := (r.country, r.date)

/-- The (country, date) key of a merged cumulative row. -/
def JhuRow.pair (r : JhuRow) : String × ℕ := (r.country, r.date)

/-- The (country, date) key of a filled cumulative row. -/
def JhuRowF.pair (r : JhuRowF) : String × ℕ := (r.country, r.date)

/-- The (country, date) key of a delta row. -/
def JhuRowD.pair (r : JhuRowD) : String × ℕ := (r.country, r.date)

/-- The (country, date) key of a processed cumulative row. -/
def JhuRowE.pair (r : JhuRowE) : String × ℕ := (r.country, r.date)

/-- The (location, date) key of a rate-source record. -/
def OwidRec.pair (r : OwidRec) : String × ℕ := (r.location, r.date)

/-- The (location, date) key of a filled rate-source row. -/
def OwidRowF.pair (r : OwidRowF) : String × ℕ := (r.location, r.date)

/-- The (location, date) key of a rate-source row with vaccination rate. -/
def OwidRowV.pair (r : OwidRowV) : String × ℕ := (r.location, r.date)

/-- The (country, date) key of a panel row. -/
def PanelRow.pair (r : PanelRow) : String × ℕ := (r.country, r.date)

/-! Helper lemmas: the alias map -/

theorem jhuToOwid_ne_us (c : String) : jhuToOwid c ≠ "US" := by
  unfold jhuToOwid
  split
  · decide
  · assumption

theorem jhuToOwid_eq_self {c : String} (h : c ≠ "US") : jhuToOwid c = c := by
  unfold jhuToOwid
  simp [h]

theorem us_not_mem_countriesJhu (countries : List String) :
    "US" ∉ countriesJhu countries := by
  intro h
  obtain ⟨c, _, hc⟩ := List.mem_map.mp h
  exact jhuToOwid_ne_us c hc

/-! Helper lemmas: generic joins -/

theorem mem_innerJoin {α β γ : Type} {xs : List α} {ys : List β}
    {keyMatch : α → β → Bool} {both : α → β → γ} {z : γ} :
    z ∈ innerJoin xs ys keyMatch both ↔
      ∃ x ∈ xs, ∃ y ∈ ys.filter (keyMatch x), z = both x y := by
  simp only [innerJoin, List.mem_flatMap, List.mem_map]
  constructor
  · rintro ⟨x, hx, y, hy, rfl⟩
    exact ⟨x, hx, y, hy, rfl⟩
  · rintro ⟨x, hx, y, hy, rfl⟩
    exact ⟨x, hx, y, hy, rfl⟩

theorem mem_leftJoin {α β γ : Type} {xs : List α} {ys : List β}
    {keyMatch : α → β → Bool} {both : α → β → γ} {noMatch : α → γ} {z : γ} :
    z ∈ leftJoin xs ys keyMatch both noMatch ↔
      ∃ x ∈ xs,
        (ys.filter (keyMatch x) = [] ∧ z = noMatch x)
        ∨ ∃ y ∈ ys.filter (keyMatch x), z = both x y := by
  simp only [leftJoin, List.mem_flatMap]
  constructor
  · rintro ⟨x, hx, hz⟩
    refine ⟨x, hx, ?_⟩
    by_cases he : (ys.filter (keyMatch x)).isEmpty
    · rw [if_pos he] at hz
      exact Or.inl ⟨List.isEmpty_iff.mp he, (List.mem_singleton.mp hz)⟩
    · rw [if_neg he] at hz
      obtain ⟨y, hy, rfl⟩ := List.mem_map.mp hz
      exact Or.inr ⟨y, hy, rfl⟩
  · rintro ⟨x, hx, h | ⟨y, hy, rfl⟩⟩
    · refine ⟨x, hx, ?_⟩
      rw [if_pos (List.isEmpty_iff.mpr h.1)]
      exact List.mem_singleton.mpr h.2
    · refine ⟨x, hx, ?_⟩
      have hne : ¬ (ys.filter (keyMatch x)).isEmpty := by
        rw [List.isEmpty_iff]
        intro h0
        rw [h0] at hy
        exact absurd hy (List.not_mem_nil y)
      rw [if_neg hne]
      exact List.mem_map.mpr ⟨y, hy, rfl⟩

theorem mem_map_key_leftJoin {α β γ κ : Type} {xs : List α} {ys : List β}
    {keyMatch : α → β → Bool} {both : α → β → γ} {noMatch : α → γ}
    {kx : α → κ} {kγ : γ → κ}
    (hb : ∀ x y, kγ (both x y) = kx x) (hn : ∀ x, kγ (noMatch x) = kx x)
    (k : κ) :
    k ∈ (leftJoin xs ys keyMatch both noMatch).map kγ ↔ k ∈ xs.map kx := by
  simp only [List.mem_map]
  constructor
  · rintro ⟨z, hz, rfl⟩
    obtain ⟨x, hx, ⟨_, rfl⟩ | ⟨y, _, rfl⟩⟩ := mem_leftJoin.mp hz
    · exact ⟨x, hx, (hn x).symm⟩
    · exact ⟨x, hx, (hb x y).symm⟩
  · rintro ⟨x, hx, rfl⟩
    by_cases he : ys.filter (keyMatch x) = []
    · exact ⟨noMatch x, mem_leftJoin.mpr ⟨x, hx, Or.inl ⟨he, rfl⟩⟩, hn x⟩
    · obtain ⟨y, hy⟩ := List.exists_mem_of_ne_nil _ he
      exact ⟨both x y, mem_leftJoin.mpr ⟨x, hx, Or.inr ⟨y, hy, rfl⟩⟩, hb x y⟩

theorem filter_key_length_le_one {β κ : Type} [DecidableEq κ]
    {ys : List β} {ky : β → κ} (hnd : (ys.map ky).Nodup)
    (p : β → Bool) (k : κ) (hp : ∀ y, p y = true → ky y = k) :
    (ys.filter p).length ≤ 1 := by
  induction ys with
  | nil => simp
  | cons y ys ih =>
      simp only [List.map_cons, List.nodup_cons] at hnd
      by_cases hy : p y
      · have hrest : ys.filter p = [] := by
          rw [List.filter_eq_nil_iff]
          intro z hz hpz
          exact hnd.1 (List.mem_map.mpr ⟨z, hz, (hp z hpz).trans (hp y hy).symm⟩)
        simp [List.filter_cons, hy, hrest]
      · simpa [List.filter_cons, hy] using ih hnd.2

theorem map_key_leftJoin_eq {α β γ κ : Type} [DecidableEq κ]
    {xs : List α} {ys : List β}
    {keyMatch : α → β → Bool} {both : α → β → γ} {noMatch : α → γ}
    {kx : α → κ} {ky : β → κ} {kγ : γ → κ}
    (hm : ∀ x y, keyMatch x y = true → ky y = kx x)
    (hb : ∀ x y, kγ (both x y) = kx x) (hn : ∀ x, kγ (noMatch x) = kx x)
    (hnd : (ys.map ky).Nodup) :
    (leftJoin xs ys keyMatch both noMatch).map kγ = xs.map kx := by
  induction xs with
  | nil => simp [leftJoin]
  | cons x xs ih =>
      have hlen : (ys.filter (keyMatch x)).length ≤ 1 :=
        filter_key_length_le_one hnd (keyMatch x) (kx x) (fun y hy => hm x y hy)
      have hstep : leftJoin (x :: xs) ys keyMatch both noMatch =
          (if (ys.filter (keyMatch x)).isEmpty then [noMatch x]
            else (ys.filter (keyMatch x)).map (both x))
          ++ leftJoin xs ys keyMatch both noMatch := by
        simp [leftJoin]
      rw [hstep, List.map_append, ih, List.map_cons]
      have hblock : ((if (ys.filter (keyMatch x)).isEmpty then [noMatch x]
          else (ys.filter (keyMatch x)).map (both x))).map kγ = [kx x] := by
        match hms : ys.filter (keyMatch x) with
        | [] => simp [hms, hn]
        | [y] => simp [hms, hb]
        | y₁ :: y₂ :: t =>
            rw [hms] at hlen
            simp at hlen
      rw [hblock]
      rfl

theorem innerJoin_key_mem {α β γ κ : Type} {xs : List α} {ys : List β}
    {keyMatch : α → β → Bool} {both : α → β → γ}
    {kx : α → κ} {kγ : γ → κ}
    (hb : ∀ x y, kγ (both x y) = kx x) {z : γ}
    (hz : z ∈ innerJoin xs ys keyMatch both) : kγ z ∈ xs.map kx := by
  obtain ⟨x, hx, y, _, rfl⟩ := mem_innerJoin.mp hz
  exact List.mem_map.mpr ⟨x, hx, (hb x y).symm⟩

theorem innerJoin_key_nodup {α β γ κ : Type} [DecidableEq κ]
    {xs : List α} {ys : List β}
    {keyMatch : α → β → Bool} {both : α → β → γ}
    {kx : α → κ} {ky : β → κ} {kγ : γ → κ}
    (hm : ∀ x y, keyMatch x y = true → ky y = kx x)
    (hb : ∀ x y, kγ (both x y) = kx x)
    (hxnd : (xs.map kx).Nodup) (hynd : (ys.map ky).Nodup) :
    ((innerJoin xs ys keyMatch both).map kγ).Nodup := by
  induction xs with
  | nil => simp [innerJoin]
  | cons x xs ih =>
      simp only [List.map_cons, List.nodup_cons] at hxnd
      have hstep : innerJoin (x :: xs) ys keyMatch both =
          (ys.filter (keyMatch x)).map (both x) ++ innerJoin xs ys keyMatch both := by
        simp [innerJoin]
      rw [hstep, List.map_append]
      have hlen : (ys.filter (keyMatch x)).length ≤ 1 :=
        filter_key_length_le_one hynd (keyMatch x) (kx x) (fun y hy => hm x y hy)
      refine List.nodup_append.mpr ⟨?_, ih hxnd.2, ?_⟩
      · match hms : ys.filter (keyMatch x) with
        | [] => simp
        | [y] => simp
        | y₁ :: y₂ :: t => simp [hms] at hlen
      · intro k hk hk2
        rw [List.map_map] at hk
        obtain ⟨y, hy, hky⟩ := List.mem_map.mp hk
        obtain ⟨z, hz, hzk⟩ := List.mem_map.mp hk2
        have h1 : k = kx x := by
          rw [← hky]
          exact hb x y
        have h2 := innerJoin_key_mem hb hz
        rw [hzk, h1] at h2
        exact hxnd.1 h2

/-! Helper lemmas: the per-stage transformations -/

theorem fillnaJhu_map_pair (t : List JhuRow) :
    (fillnaJhu t).map JhuRowF.pair = t.map JhuRow.pair := by
  simp only [fillnaJhu, List.map_map]
  apply List.map_congr_left
  intro a _
  rfl

theorem mem_fillnaJhu {t : List JhuRow} {x : JhuRowF} :
    x ∈ fillnaJhu t ↔ ∃ r ∈ t,
      x = ⟨r.country, r.date, r.cases.getD 0, r.deaths.getD 0, r.recovered.getD 0⟩ := by
  simp only [fillnaJhu, List.mem_map]
  constructor
  · rintro ⟨r, hr, rfl⟩
    exact ⟨r, hr, rfl⟩
  · rintro ⟨r, hr, rfl⟩
    exact ⟨r, hr, rfl⟩

theorem sortJhu_perm (t : List JhuRowF) : (sortJhu t).Perm t :=
  List.perm_insertionSort jhuLe t

theorem sortJhu_sorted (t : List JhuRowF) : List.Sorted jhuLe (sortJhu t) :=
  List.sorted_insertionSort jhuLe t

theorem addDiff_length (p : Option (String × ℚ × ℚ)) (t : List JhuRowF) :
    (addDiff p t).length = t.length := by
  induction t generalizing p with
  | nil => rfl
  | cons r rest ih => simp [addDiff, ih]

theorem addDiff_map_pair (p : Option (String × ℚ × ℚ)) (t : List JhuRowF) :
    (addDiff p t).map JhuRowD.pair = t.map JhuRowF.pair := by
  induction t generalizing p with
  | nil => rfl
  | cons r rest ih => simp [addDiff, ih, JhuRowD.pair, JhuRowF.pair]

theorem mem_addDiff {p : Option (String × ℚ × ℚ)} {t : List JhuRowF} {x : JhuRowD}
    (hx : x ∈ addDiff p t) :
    ∃ s ∈ t, x.country = s.country ∧ x.date = s.date ∧ x.totalCases = s.totalCases
      ∧ x.totalDeaths = s.totalDeaths ∧ x.totalRecovered = s.totalRecovered := by
  induction t generalizing p with
  | nil => simp [addDiff] at hx
  | cons r rest ih =>
      simp only [addDiff, List.mem_cons] at hx
      rcases hx with rfl | hx
      · exact ⟨r, List.mem_cons_self r rest, rfl, rfl, rfl, rfl, rfl⟩
      · obtain ⟨s, hs, h⟩ := ih hx
        exact ⟨s, List.mem_cons_of_mem r hs, h⟩

theorem addDiff_getElem_fields (p : Option (String × ℚ × ℚ)) (t : List JhuRowF)
    (i : ℕ) (hi : i < t.length) :
    have hlen : i < (addDiff p t).length := by rw [addDiff_length]; exact hi
    (addDiff p t)[i].country = t[i].country ∧ (addDiff p t)[i].date = t[i].date
      ∧ (addDiff p t)[i].totalCases = t[i].totalCases
      ∧ (addDiff p t)[i].totalDeaths = t[i].totalDeaths
      ∧ (addDiff p t)[i].totalRecovered = t[i].totalRecovered := by
  induction t generalizing p i with
  | nil => exact absurd hi (by simp)
  | cons r rest ih =>
      match i with
      | 0 => exact ⟨rfl, rfl, rfl, rfl, rfl⟩
      | i + 1 =>
          have hi2 : i < rest.length := Nat.lt_of_succ_lt_succ hi
          exact ih _ i hi2

theorem addDiff_cons (p : Option (String × ℚ × ℚ)) (r : JhuRowF)
    (rest : List JhuRowF) :
    addDiff p (r :: rest) =
      ⟨r.country, r.date, r.totalCases, r.totalDeaths, r.totalRecovered,
        (match p with
          | some (c, pc, _) => if c = r.country then r.totalCases - pc else 0
          | none => 0),
        (match p with
          | some (c, _, pd) => if c = r.country then r.totalDeaths - pd else 0
          | none => 0)⟩
        :: addDiff (some (r.country, r.totalCases, r.totalDeaths)) rest := rfl

theorem addDiff_getElem_succ (t : List JhuRowF) (p : Option (String × ℚ × ℚ))
    (i : ℕ) (hi : i + 1 < t.length) :
    have hlen : i + 1 < (addDiff p t).length := by rw [addDiff_length]; exact hi
    (addDiff p t)[i + 1].newCases =
        (if t[i].country = t[i + 1].country
          then t[i + 1].totalCases - t[i].totalCases else 0)
      ∧ (addDiff p t)[i + 1].newDeaths =
        (if t[i].country = t[i + 1].country
          then t[i + 1].totalDeaths - t[i].totalDeaths else 0) := by
  induction t generalizing p i with
  | nil => exact absurd hi (by simp)
  | cons r rest ih =>
      match i with
      | 0 =>
          match rest, hi with
          | b :: rest2, _ => exact ⟨rfl, rfl⟩
      | i + 1 =>
          have hi2 : i + 1 < rest.length := Nat.lt_of_succ_lt_succ hi
          exact ih _ i hi2

theorem mem_addDeathRate {t : List JhuRowD} {x : JhuRowE} :
    x ∈ addDeathRate t ↔ ∃ r ∈ t,
      x = ⟨r.country, r.date, r.totalCases, r.totalDeaths, r.totalRecovered,
        r.newCases, r.newDeaths,
        r.totalDeaths / (if r.totalCases = 0 then 1 else r.totalCases)⟩ := by
  simp only [addDeathRate, List.mem_map]
  constructor
  · rintro ⟨r, hr, rfl⟩
    exact ⟨r, hr, rfl⟩
  · rintro ⟨r, hr, rfl⟩
    exact ⟨r, hr, rfl⟩

theorem addDeathRate_map_pair (t : List JhuRowD) :
    (addDeathRate t).map JhuRowE.pair = t.map JhuRowD.pair := by
  simp only [addDeathRate, List.map_map]
  apply List.map_congr_left
  intro a _
  rfl

theorem mem_dfJhuFiltered {confirmed deaths recovered : List CDRec}
    {countries : List String} {row : JhuRow}
    (h : row ∈ dfJhuFiltered confirmed deaths recovered countries) :
    row ∈ dfJhu confirmed deaths recovered ∧ row.country ∈ countriesJhu countries := by
  have := List.mem_filter.mp h
  exact ⟨this.1, of_decide_eq_true this.2⟩

theorem mem_dfJhu_pair {confirmed deaths recovered : List CDRec} {row : JhuRow}
    (h : row ∈ dfJhu confirmed deaths recovered) :
    ∃ cc ∈ confirmed, row.country = cc.country ∧ row.date = cc.date := by
  obtain ⟨cd, hcd, hrow⟩ := mem_leftJoin.mp h
  obtain ⟨c, hc, d, _, rfl⟩ := mem_innerJoin.mp hcd
  rcases hrow with ⟨_, rfl⟩ | ⟨r, _, rfl⟩
  · exact ⟨c, hc, rfl, rfl⟩
  · exact ⟨c, hc, rfl, rfl⟩

theorem mem_processedJhu_source {confirmed deaths recovered : List CDRec}
    {userInput : String} {row : JhuRowE}
    (h : row ∈ processedJhu confirmed deaths recovered userInput) :
    ∃ jr ∈ dfJhuFiltered confirmed deaths recovered (chooseCountries userInput),
      row.country = jr.country ∧ row.date = jr.date
        ∧ row.totalCases = jr.cases.getD 0 ∧ row.totalDeaths = jr.deaths.getD 0
        ∧ row.totalRecovered = jr.recovered.getD 0 := by
  obtain ⟨rd, hrd, rfl⟩ := mem_addDeathRate.mp h
  obtain ⟨rf, hrf, h1, h2, h3, h4, h5⟩ := mem_addDiff hrd
  have hrf2 : rf ∈ fillnaJhu (dfJhuFiltered confirmed deaths recovered
      (chooseCountries userInput)) := (sortJhu_perm _).mem_iff.mp hrf
  obtain ⟨jr, hjr, rfl⟩ := mem_fillnaJhu.mp hrf2
  exact ⟨jr, hjr, h1, h2, h3, h4, h5⟩

theorem mem_processedJhu_country {confirmed deaths recovered : List CDRec}
    {userInput : String} {row : JhuRowE}
    (h : row ∈ processedJhu confirmed deaths recovered userInput) :
    row.country ∈ countriesJhu (chooseCountries userInput) := by
  obtain ⟨jr, hjr, h1, _⟩ := mem_processedJhu_source h
  rw [h1]
  exact (mem_dfJhuFiltered hjr).2

theorem replaceCountries_processedJhu (confirmed deaths recovered : List CDRec)
    (userInput : String) :
    replaceCountries (processedJhu confirmed deaths recovered userInput)
      = processedJhu confirmed deaths recovered userInput := by
  unfold replaceCountries
  rw [show (processedJhu confirmed deaths recovered userInput)
      = (processedJhu confirmed deaths recovered userInput).map id by simp]
  rw [List.map_map]
  apply List.map_congr_left
  intro row hrow
  have hc := mem_processedJhu_country (by simpa using hrow)
  obtain ⟨c0, _, hc0⟩ := List.mem_map.mp hc
  have hne : row.country ≠ "US" := by
    rw [← hc0]
    exact jhuToOwid_ne_us c0
  simp [jhuToOwid_eq_self hne]

theorem mem_owidProcessed {owid : List OwidRec} {countries : List String} {o : OwidRowV}
    (h : o ∈ addVaccinationRate (fillnaOwid (dfOwidFiltered owid countries))) :
    ∃ src ∈ dfOwidFiltered owid countries,
      o.location = src.location ∧ o.date = src.date
        ∧ o.totalVaccinations = src.totalVaccinations.getD 0
        ∧ o.peopleFullyVaccinated = src.peopleFullyVaccinated.getD 0
        ∧ o.population = src.population ∧ o.isoCode = src.isoCode
        ∧ o.vaccinationRate
            = vaccRateVal (src.peopleFullyVaccinated.getD 0) src.population := by
  obtain ⟨f, hf, rfl⟩ := List.mem_map.mp h
  obtain ⟨src, hsrc, rfl⟩ := List.mem_map.mp hf
  exact ⟨src, hsrc, rfl, rfl, rfl, rfl, rfl, rfl, rfl⟩

theorem mem_dfCombined_decomp {confirmed deaths recovered : List CDRec}
    {owid : List OwidRec} {userInput : String} {z : PanelRow}
    (hz : z ∈ dfCombined confirmed deaths recovered owid userInput) :
    ∃ j ∈ processedJhu confirmed deaths recovered userInput,
      z.country = j.country ∧ z.date = j.date ∧ z.totalCases = j.totalCases
        ∧ z.totalDeaths = j.totalDeaths ∧ z.totalRecovered = j.totalRecovered
        ∧ z.newCases = j.newCases ∧ z.newDeaths = j.newDeaths
        ∧ z.deathRate = j.deathRate
        ∧ ((z.totalVaccinations = none ∧ z.peopleFullyVaccinated = none
              ∧ z.population = none ∧ z.isoCode = none ∧ z.vaccinationRate = none)
            ∨ ∃ o ∈ addVaccinationRate (fillnaOwid
                  (dfOwidFiltered owid (chooseCountries userInput))),
                o.location = z.country ∧ o.date = z.date
                  ∧ z.totalVaccinations = some o.totalVaccinations
                  ∧ z.peopleFullyVaccinated = some o.peopleFullyVaccinated
                  ∧ z.population = o.population ∧ z.isoCode = o.isoCode
                  ∧ z.vaccinationRate = some o.vaccinationRate) := by
  unfold dfCombined at hz
  rw [replaceCountries_processedJhu] at hz
  obtain ⟨j, hj, hcase | ⟨o, ho, rfl⟩⟩ := mem_leftJoin.mp hz
  · obtain ⟨_, rfl⟩ := hcase
    exact ⟨j, hj, rfl, rfl, rfl, rfl, rfl, rfl, rfl, rfl,
      Or.inl ⟨rfl, rfl, rfl, rfl, rfl⟩⟩
  · have ho2 := List.mem_filter.mp ho
    have hkey := of_decide_eq_true ho2.2
    exact ⟨j, hj, rfl, rfl, rfl, rfl, rfl, rfl, rfl, rfl,
      Or.inr ⟨o, ho2.1, hkey.1, hkey.2, rfl, rfl, rfl, rfl, rfl⟩⟩

theorem no_match_dfCombined {confirmed deaths recovered : List CDRec}
    {owid : List OwidRec} {userInput : String} {z : PanelRow}
    (hz : z ∈ dfCombined confirmed deaths recovered owid userInput)
    (hno : ∀ o ∈ dfOwidFiltered owid (chooseCountries userInput),
      ¬(o.location = z.country ∧ o.date = z.date)) :
    z.totalVaccinations = none ∧ z.peopleFullyVaccinated = none
      ∧ z.population = none ∧ z.vaccinationRate = none := by
  obtain ⟨j, _, _, _, _, _, _, _, _, _, hcase | ⟨o, ho, h1, h2, _⟩⟩ :=
    mem_dfCombined_decomp hz
  · exact ⟨hcase.1, hcase.2.1, hcase.2.2.1, hcase.2.2.2.2⟩
  · obtain ⟨src, hsrc, hl, hd, _⟩ := mem_owidProcessed ho
    exact absurd ⟨hl ▸ h1, hd ▸ h2⟩ (hno src hsrc)

theorem dfCombined_pairs_iff (confirmed deaths recovered : List CDRec)
    (owid : List OwidRec) (userInput : String) (pr : String × ℕ) :
    pr ∈ (dfCombined confirmed deaths recovered owid userInput).map PanelRow.pair
      ↔ pr ∈ (dfJhuFiltered confirmed deaths recovered
          (chooseCountries userInput)).map JhuRow.pair := by
  have h1 : pr ∈ (dfCombined confirmed deaths recovered owid userInput).map PanelRow.pair
      ↔ pr ∈ (processedJhu confirmed deaths recovered userInput).map JhuRowE.pair := by
    unfold dfCombined
    rw [replaceCountries_processedJhu]
    refine @mem_map_key_leftJoin _ _ _ _ _ _ _ _ _ JhuRowE.pair PanelRow.pair ?_ ?_ pr
    · intro j o
      rfl
    · intro j
      rfl
  rw [h1]
  unfold processedJhu
  rw [addDeathRate_map_pair, addDiff_map_pair]
  rw [((sortJhu_perm _).map JhuRowF.pair).mem_iff, fillnaJhu_map_pair]

/-! The claims -/

/-- C1: for every pair of input sources and every selection, the set of
(country, date) pairs of the final merged panel equals exactly the set of
(country, date) pairs of the filtered cumulative-count frame
`df_jhu_filtered` — the left merge with the rate source neither removes
cumulative-side pairs nor adds rate-source-only pairs. -/
theorem C1_panel_pairs_eq_filtered_pairs (confirmed deaths recovered : List CDRec)
    (owid : List OwidRec) (userInput : String) (pr : String × ℕ) :
    pr ∈ (dfCombined confirmed deaths recovered owid userInput).map PanelRow.pair
      ↔ pr ∈ (dfJhuFiltered confirmed deaths recovered
          (chooseCountries userInput)).map JhuRow.pair :=
  dfCombined_pairs_iff confirmed deaths recovered owid userInput pr

/-- C3: on every row of the combined panel, `death_rate` equals
`total_deaths` divided by the cases value with zero replaced by one; in
particular at `total_cases = 0` it equals `total_deaths` itself, and the
division is always defined (the quotient is a plain rational, never
missing). -/
theorem C3_death_rate_substitution (confirmed deaths recovered : List CDRec)
    (owid : List OwidRec) (userInput : String) :
    ∀ row ∈ dfCombined confirmed deaths recovered owid userInput,
      row.deathRate
          = row.totalDeaths / (if row.totalCases = 0 then 1 else row.totalCases)
        ∧ (row.totalCases = 0 → row.deathRate = row.totalDeaths) := by
  intro row hrow
  obtain ⟨j, hj, _, _, hc, hd, _, _, _, hr, _⟩ := mem_dfCombined_decomp hrow
  obtain ⟨rd, _, rfl⟩ := mem_addDeathRate.mp hj
  refine ⟨?_, ?_⟩
  · rw [hr, hc, hd]
  · intro h0
    rw [hc] at h0
    rw [hr, hd]
    show rd.totalDeaths / (if rd.totalCases = 0 then 1 else rd.totalCases)
      = rd.totalDeaths
    rw [if_pos h0, div_one]

/-- Witness for C3 at the spec's own scenario (country A, one day, 10 cases,
1 death): the panel row carries death rate 1/10 and satisfies the
substitution law. -/
theorem C3_death_rate_substitution_witness :
    (⟨"A", 1, 10, 1, 0, 0, 0, 1/10, none, none, none, none, none⟩ : PanelRow).deathRate
        = (⟨"A", 1, 10, 1, 0, 0, 0, 1/10, none, none, none, none, none⟩ : PanelRow).totalDeaths
          / (if (⟨"A", 1, 10, 1, 0, 0, 0, 1/10, none, none, none, none, none⟩ :
              PanelRow).totalCases = 0 then 1
            else (⟨"A", 1, 10, 1, 0, 0, 0, 1/10, none, none, none, none, none⟩ :
              PanelRow).totalCases)
      ∧ ((⟨"A", 1, 10, 1, 0, 0, 0, 1/10, none, none, none, none, none⟩ :
            PanelRow).totalCases = 0 →
          (⟨"A", 1, 10, 1, 0, 0, 0, 1/10, none, none, none, none, none⟩ :
              PanelRow).deathRate
            = (⟨"A", 1, 10, 1, 0, 0, 0, 1/10, none, none, none, none, none⟩ :
              PanelRow).totalDeaths) := by
  have hpanel : dfCombined [⟨"A", 1, some 10⟩] [⟨"A", 1, some 1⟩] [] [] "A"
      = [⟨"A", 1, 10, 1, 0, 0, 0, 1/10, none, none, none, none, none⟩] := by
    norm_num [dfCombined, processedJhu, dfJhuFiltered, dfJhu, innerJoin, leftJoin,
      chooseCountries, pySplitComma, pyStrip, countriesJhu, jhuToOwid, fillnaJhu,
      sortJhu, List.insertionSort, addDiff, addDeathRate, replaceCountries,
      dfOwidFiltered, fillnaOwid, addVaccinationRate, List.filter]
    decide
  exact C3_death_rate_substitution [⟨"A", 1, some 10⟩] [⟨"A", 1, some 1⟩] [] [] "A"
    ⟨"A", 1, 10, 1, 0, 0, 0, 1/10, none, none, none, none, none⟩
    (by rw [hpanel]; exact List.mem_singleton.mpr rfl)

set_option maxHeartbeats 2000000 in
/-- C2: in the processed cumulative frame (rows sorted so that each country's
rows are consecutive and date-ascending), every row whose predecessor belongs
to the same country carries `new_cases` equal to the difference of consecutive
`total_cases` (and `new_deaths` likewise), with dates ascending within the
country and negative differences passed through as negative values; every row
that starts a country group — in particular the very first row — carries zero
deltas. -/
theorem C2_daily_deltas_by_diff (confirmed deaths recovered : List CDRec)
    (userInput : String) :
    let L := processedJhu confirmed deaths recovered userInput
    (∀ i, (hi : i + 1 < L.length) →
        (L[i + 1].country = L[i].country →
          L[i + 1].newCases = L[i + 1].totalCases - L[i].totalCases
            ∧ L[i + 1].newDeaths = L[i + 1].totalDeaths - L[i].totalDeaths
            ∧ L[i].date ≤ L[i + 1].date
            ∧ (L[i + 1].totalCases < L[i].totalCases → L[i + 1].newCases < 0))
          ∧ (L[i + 1].country ≠ L[i].country →
              L[i + 1].newCases = 0 ∧ L[i + 1].newDeaths = 0))
      ∧ (∀ h0 : 0 < L.length, L[0].newCases = 0 ∧ L[0].newDeaths = 0) := by
  intro L
  have hLdef : L = addDeathRate (addDiff none (sortJhu (fillnaJhu
      (dfJhuFiltered confirmed deaths recovered (chooseCountries userInput))))) := rfl
  constructor
  · intro i hi
    have hlen : L.length = (sortJhu (fillnaJhu
        (dfJhuFiltered confirmed deaths recovered (chooseCountries userInput)))).length := by
      rw [hLdef]
      unfold addDeathRate
      rw [List.length_map, addDiff_length]
    have hiS : i + 1 < (sortJhu (fillnaJhu
        (dfJhuFiltered confirmed deaths recovered (chooseCountries userInput)))).length := by
      rw [← hlen]
      exact hi
    have hiD : i + 1 < (addDiff none (sortJhu (fillnaJhu
        (dfJhuFiltered confirmed deaths recovered (chooseCountries userInput))))).length := by
      rw [addDiff_length]
      exact hiS
    have hgetS : ∀ k, (hk : k < L.length) →
        L[k] = (fun r : JhuRowD =>
          (⟨r.country, r.date, r.totalCases, r.totalDeaths, r.totalRecovered,
            r.newCases, r.newDeaths,
            r.totalDeaths / (if r.totalCases = 0 then 1 else r.totalCases)⟩ : JhuRowE))
          ((addDiff none (sortJhu (fillnaJhu (dfJhuFiltered confirmed deaths recovered
            (chooseCountries userInput))))).get ⟨k, by
              rw [addDiff_length, ← hlen]; exact hk⟩) := by
      intro k hk
      exact List.getElem_map _
    set S := sortJhu (fillnaJhu
      (dfJhuFiltered confirmed deaths recovered (chooseCountries userInput))) with hSdef
    set DS := addDiff none S with hDSdef
    have hfields := addDiff_getElem_fields none S
    have hsucc := addDiff_getElem_succ S none i hiS
    have hfi := hfields i (Nat.lt_of_succ_lt hiS)
    have hfi1 := hfields (i + 1) hiS
    have hgi := hgetS i (Nat.lt_of_succ_lt hi)
    have hgi1 := hgetS (i + 1) hi
    have hsorted : jhuLe S[i] S[i + 1] := by
      have hs := sortJhu_sorted (fillnaJhu
        (dfJhuFiltered confirmed deaths recovered (chooseCountries userInput)))
      exact List.pairwise_iff_getElem.mp hs i (i + 1)
        (Nat.lt_of_succ_lt hiS) hiS (Nat.lt_succ_self i)
    constructor
    · intro hsame
      have hcS : S[i + 1].country = S[i].country := by
        rw [hgi, hgi1] at hsame
        simpa [hfi.1, hfi1.1] using hsame
      have hcond : S[i].country = S[i + 1].country := hcS.symm
      have hnc : L[i + 1].newCases = L[i + 1].totalCases - L[i].totalCases := by
        rw [hgi, hgi1]
        show DS[i + 1].newCases = DS[i + 1].totalCases - DS[i].totalCases
        rw [hsucc.1, if_pos hcond, hfi1.2.2.1, hfi.2.2.1]
      have hnd : L[i + 1].newDeaths = L[i + 1].totalDeaths - L[i].totalDeaths := by
        rw [hgi, hgi1]
        show DS[i + 1].newDeaths = DS[i + 1].totalDeaths - DS[i].totalDeaths
        rw [hsucc.2, if_pos hcond, hfi1.2.2.2.1, hfi.2.2.2.1]
      refine ⟨hnc, hnd, ?_, ?_⟩
      · have hdate : S[i].date ≤ S[i + 1].date := by
          have hlex : jhuKey S[i] ≤ jhuKey S[i + 1] := hsorted
          unfold jhuKey at hlex
          rcases (Prod.Lex.le_iff _ _).mp hlex with hlt | ⟨_, hle⟩
          · rw [hcS] at hlt
            exact absurd hlt (lt_irrefl _)
          · exact hle
        rw [hgi, hgi1]
        simpa [hfi.2.1, hfi1.2.1] using hdate
      · intro hdec
        rw [hnc]
        rw [sub_neg]
        exact hdec
    · intro hdiff
      have hcS : S[i + 1].country ≠ S[i].country := by
        rw [hgi, hgi1] at hdiff
        simpa [hfi.1, hfi1.1] using hdiff
      have hcond : ¬ S[i].country = S[i + 1].country := fun h => hcS h.symm
      constructor
      · rw [hgi1]
        show DS[i + 1].newCases = 0
        rw [hsucc.1, if_neg hcond]
      · rw [hgi1]
        show DS[i + 1].newDeaths = 0
        rw [hsucc.2, if_neg hcond]
  · intro h0
    match hS : sortJhu (fillnaJhu
        (dfJhuFiltered confirmed deaths recovered (chooseCountries userInput))) with
    | [] =>
        rw [hLdef, hS] at h0
        simp [addDiff, addDeathRate] at h0
    | a :: rest =>
        have hL2 : L = addDeathRate (addDiff none (a :: rest)) := by
          rw [hLdef, hS]
        have key : ∀ (M : List JhuRowE), M = addDeathRate (addDiff none (a :: rest)) →
            ∀ hm : 0 < M.length, M[0].newCases = 0 ∧ M[0].newDeaths = 0 := by
          intro M hM hm
          subst hM
          exact ⟨rfl, rfl⟩
        exact key L hL2 h0

/-- Witness for C2 at the spec's scenario (country A, two days, cumulative
cases 10 then 15 and deaths 1 then 2): the second row's deltas are the
consecutive differences, the first row's deltas are zero. -/
theorem C2_daily_deltas_by_diff_witness :
    have h1 : 0 + 1 < (processedJhu [⟨"A", 1, some 10⟩, ⟨"A", 2, some 15⟩]
        [⟨"A", 1, some 1⟩, ⟨"A", 2, some 2⟩] [] "A").length := by decide
    ((processedJhu [⟨"A", 1, some 10⟩, ⟨"A", 2, some 15⟩]
        [⟨"A", 1, some 1⟩, ⟨"A", 2, some 2⟩] [] "A")[0 + 1].country
      = (processedJhu [⟨"A", 1, some 10⟩, ⟨"A", 2, some 15⟩]
        [⟨"A", 1, some 1⟩, ⟨"A", 2, some 2⟩] [] "A")[0].country)
    ∧ ((processedJhu [⟨"A", 1, some 10⟩, ⟨"A", 2, some 15⟩]
          [⟨"A", 1, some 1⟩, ⟨"A", 2, some 2⟩] [] "A")[0 + 1].newCases
        = (processedJhu [⟨"A", 1, some 10⟩, ⟨"A", 2, some 15⟩]
            [⟨"A", 1, some 1⟩, ⟨"A", 2, some 2⟩] [] "A")[0 + 1].totalCases
          - (processedJhu [⟨"A", 1, some 10⟩, ⟨"A", 2, some 15⟩]
              [⟨"A", 1, some 1⟩, ⟨"A", 2, some 2⟩] [] "A")[0].totalCases)
    ∧ ((processedJhu [⟨"A", 1, some 10⟩, ⟨"A", 2, some 15⟩]
        [⟨"A", 1, some 1⟩, ⟨"A", 2, some 2⟩] [] "A")[0].newCases = 0) := by
  have h1 : 0 + 1 < (processedJhu [⟨"A", 1, some 10⟩, ⟨"A", 2, some 15⟩]
      [⟨"A", 1, some 1⟩, ⟨"A", 2, some 2⟩] [] "A").length := by decide
  have hsame : ((processedJhu [⟨"A", 1, some 10⟩, ⟨"A", 2, some 15⟩]
        [⟨"A", 1, some 1⟩, ⟨"A", 2, some 2⟩] [] "A").get ⟨0 + 1, by decide⟩).country
      = ((processedJhu [⟨"A", 1, some 10⟩, ⟨"A", 2, some 15⟩]
        [⟨"A", 1, some 1⟩, ⟨"A", 2, some 2⟩] [] "A").get
          ⟨0, by decide⟩).country := by decide
  have hc2 := C2_daily_deltas_by_diff [⟨"A", 1, some 10⟩, ⟨"A", 2, some 15⟩]
    [⟨"A", 1, some 1⟩, ⟨"A", 2, some 2⟩] [] "A"
  exact ⟨hsame, ((hc2.1 0 h1).1 hsame).1,
    (hc2.2 (Nat.lt_of_succ_lt h1)).1⟩

theorem dedupAux_nil_of_mem {α : Type} [DecidableEq α] :
    ∀ (ys seen : List α), (∀ y ∈ ys, y ∈ seen) → dedupAux seen ys = [] := by
  intro ys
  induction ys with
  | nil => intro seen _; rfl
  | cons y ys ih =>
      intro seen h
      simp only [dedupAux, if_pos (h y (List.mem_cons_self y ys))]
      exact ih seen (fun z hz => h z (List.mem_cons_of_mem y hz))

theorem dedupAux_append_left_mem {α : Type} [DecidableEq α] :
    ∀ (xs ys seen : List α), (∀ x ∈ xs, x ∈ seen) →
      dedupAux seen (xs ++ ys) = dedupAux seen ys := by
  intro xs
  induction xs with
  | nil => intro ys seen _; rfl
  | cons x xs ih =>
      intro ys seen h
      simp only [List.cons_append, dedupAux, if_pos (h x (List.mem_cons_self x xs))]
      exact ih ys seen (fun z hz => h z (List.mem_cons_of_mem x hz))

theorem dedupAux_append_subset {α : Type} [DecidableEq α] :
    ∀ (xs ys seen : List α), (∀ y ∈ ys, y ∈ xs ∨ y ∈ seen) →
      dedupAux seen (xs ++ ys) = dedupAux seen xs := by
  intro xs
  induction xs with
  | nil =>
      intro ys seen h
      exact dedupAux_nil_of_mem ys seen (fun y hy => (h y hy).resolve_left
        (List.not_mem_nil y))
  | cons x xs ih =>
      intro ys seen h
      by_cases hx : x ∈ seen
      · simp only [List.cons_append, dedupAux, if_pos hx]
        exact ih ys seen (fun y hy => by
          rcases h y hy with hyx | hys
          · rcases List.mem_cons.mp hyx with rfl | hy2
            · exact Or.inr hx
            · exact Or.inl hy2
          · exact Or.inr hys)
      · simp only [List.cons_append, dedupAux, if_neg hx]
        congr 1
        exact ih ys (x :: seen) (fun y hy => by
          rcases h y hy with hyx | hys
          · rcases List.mem_cons.mp hyx with rfl | hy2
            · exact Or.inr (List.mem_cons_self y seen)
            · exact Or.inl hy2
          · exact Or.inr (List.mem_cons_of_mem x hys))

theorem dedupAux_of_nodup {α : Type} [DecidableEq α] :
    ∀ (l seen : List α), l.Nodup → (∀ a ∈ l, a ∉ seen) → dedupAux seen l = l := by
  intro l
  induction l with
  | nil => intro seen _ _; rfl
  | cons a l ih =>
      intro seen hnd hd
      have hna : a ∉ seen := hd a (List.mem_cons_self a l)
      simp only [dedupAux, if_neg hna]
      congr 1
      have hnd2 := List.nodup_cons.mp hnd
      exact ih (a :: seen) hnd2.2 (fun b hb => by
        intro hmem
        rcases List.mem_cons.mp hmem with rfl | h2
        · exact hnd2.1 hb
        · exact hd b (List.mem_cons_of_mem a hb) h2)

theorem dedupAux_flatMap_replicate {α : Type} [DecidableEq α] (n : ℕ) (hn : 0 < n) :
    ∀ (ds seen : List α), ds.Nodup → (∀ d ∈ ds, d ∉ seen) →
      dedupAux seen (ds.flatMap (fun d => List.replicate n d)) = ds := by
  intro ds
  induction ds with
  | nil => intro seen _ _; rfl
  | cons d rest ih =>
      intro seen hnd hdis
      have hd : d ∉ seen := hdis d (List.mem_cons_self d rest)
      have hnd2 := List.nodup_cons.mp hnd
      match n, hn with
      | m + 1, _ =>
          rw [List.flatMap_cons, List.replicate_succ, List.cons_append]
          simp only [dedupAux, if_neg hd]
          congr 1
          rw [dedupAux_append_left_mem _ _ _ (fun x hx => by
            rw [(List.mem_replicate.mp hx).2]
            exact List.mem_cons_self d seen)]
          exact ih (d :: seen) hnd2.2 (fun e he => by
            intro hmem
            rcases List.mem_cons.mp hmem with rfl | h2
            · exact hnd2.1 he
            · exact hdis e (List.mem_cons_of_mem d he) h2)

theorem map_const_eq_replicate {α β : Type} (l : List α) (b : β) :
    l.map (fun _ => b) = List.replicate l.length b := by
  induction l with
  | nil => rfl
  | cons a l ih => simp [ih, List.replicate_succ]

theorem meltAux_map_date (rows : List WideRow) :
    ∀ (ds : List String) (i : ℕ),
      (meltAux rows ds i).map (fun m => m.date)
        = ds.flatMap (fun d => List.replicate rows.length d) := by
  intro ds
  induction ds with
  | nil => intro i; rfl
  | cons d rest ih =>
      intro i
      rw [List.flatMap_cons]
      simp only [meltAux, List.map_append, List.map_map, ih]
      congr 1
      exact map_const_eq_replicate rows d

theorem meltAux_map_idTup (rows : List WideRow) :
    ∀ (ds : List String) (i : ℕ),
      (meltAux rows ds i).map MeltRec.idTup
        = ds.flatMap (fun _ => rows.map WideRow.idTup) := by
  intro ds
  induction ds with
  | nil => intro i; rfl
  | cons d rest ih =>
      intro i
      rw [List.flatMap_cons]
      simp only [meltAux, List.map_append, List.map_map, ih]
      congr 1

theorem dedup_melt_dates (dates : List String) (rows : List WideRow)
    (hrows : rows ≠ []) (hnd : dates.Nodup) :
    dedupKeep ((reshapeJhu ⟨dates, rows⟩).map (fun m => m.date)) = dates := by
  unfold dedupKeep reshapeJhu
  rw [meltAux_map_date]
  exact dedupAux_flatMap_replicate rows.length (List.length_pos.mpr hrows)
    dates [] hnd (by simp)

theorem dedup_melt_ids (dates : List String) (rows : List WideRow)
    (hds : dates ≠ []) (hnid : (rows.map WideRow.idTup).Nodup) :
    dedupKeep ((reshapeJhu ⟨dates, rows⟩).map MeltRec.idTup)
      = rows.map WideRow.idTup := by
  unfold dedupKeep reshapeJhu
  rw [meltAux_map_idTup]
  match dates, hds with
  | d :: rest, _ =>
      rw [List.flatMap_cons]
      rw [dedupAux_append_subset _ _ _ (fun y hy => by
        obtain ⟨_, _, hmem⟩ := List.mem_flatMap.mp hy
        exact Or.inl hmem)]
      exact dedupAux_of_nodup _ [] hnid (by simp)

theorem find?_block (rows : List WideRow) (r : WideRow) (d : String) (i : ℕ)
    (hr : r ∈ rows) (hnid : (rows.map WideRow.idTup).Nodup) :
    (rows.map (fun w =>
        (⟨w.prov, w.country, w.lat, w.lng, d, w.cells.getD i none⟩ : MeltRec))).find?
        (fun m => decide (m.idTup = r.idTup ∧ m.date = d))
      = some ⟨r.prov, r.country, r.lat, r.lng, d, r.cells.getD i none⟩ := by
  induction rows with
  | nil => exact absurd hr (List.not_mem_nil r)
  | cons w ws ih =>
      rw [List.map_cons]
      by_cases hw : WideRow.idTup w = WideRow.idTup r
      · have hwr : w = r := by
          rcases List.mem_cons.mp hr with rfl | hr2
          · rfl
          · exfalso
            have hnd2 := List.nodup_cons.mp (by
              rw [List.map_cons] at hnid
              exact hnid)
            exact hnd2.1 (List.mem_map.mpr ⟨r, hr2, hw.symm⟩)
        subst hwr
        rw [List.find?_cons_of_pos]
        rw [decide_eq_true_eq]
        exact ⟨rfl, rfl⟩
      · rw [List.find?_cons_of_neg]
        · have hr2 : r ∈ ws := by
            rcases List.mem_cons.mp hr with rfl | hr2
            · exact absurd rfl hw
            · exact hr2
          have hnd2 := List.nodup_cons.mp (by
            rw [List.map_cons] at hnid
            exact hnid)
          exact ih hr2 hnd2.2
        · rw [decide_eq_true_eq]
          rintro ⟨h1, _⟩
          exact hw h1

theorem find?_block_none (rows : List WideRow) (idt : Option String × String × Cell × Cell)
    (d dt : String) (i : ℕ) (hne : d ≠ dt) :
    (rows.map (fun w =>
        (⟨w.prov, w.country, w.lat, w.lng, d, w.cells.getD i none⟩ : MeltRec))).find?
        (fun m => decide (m.idTup = idt ∧ m.date = dt)) = none := by
  rw [List.find?_eq_none]
  intro m hm
  obtain ⟨w, _, rfl⟩ := List.mem_map.mp hm
  rw [decide_eq_true_eq]
  rintro ⟨_, h2⟩
  exact hne h2

theorem find?_meltAux (rows : List WideRow) (r : WideRow)
    (hr : r ∈ rows) (hnid : (rows.map WideRow.idTup).Nodup) :
    ∀ (ds : List String) (i j : ℕ) (hj : j < ds.length), ds.Nodup →
      (meltAux rows ds i).find?
          (fun m => decide (m.idTup = r.idTup ∧ m.date = ds[j]))
        = some ⟨r.prov, r.country, r.lat, r.lng, ds[j], r.cells.getD (i + j) none⟩ := by
  intro ds
  induction ds with
  | nil => intro i j hj; exact absurd hj (by simp)
  | cons d rest ih =>
      intro i j hj hndd
      have hnd2 := List.nodup_cons.mp hndd
      match j with
      | 0 =>
          show (meltAux rows (d :: rest) i).find?
              (fun m => decide (m.idTup = r.idTup ∧ m.date = d))
            = some ⟨r.prov, r.country, r.lat, r.lng, d, r.cells.getD (i + 0) none⟩
          rw [Nat.add_zero]
          show (rows.map _ ++ meltAux rows rest (i + 1)).find? _ = _
          rw [List.find?_append, find?_block rows r d i hr hnid]
          rfl
      | j + 1 =>
          have hj2 : j < rest.length := Nat.lt_of_succ_lt_succ hj
          show (meltAux rows (d :: rest) i).find?
              (fun m => decide (m.idTup = r.idTup ∧ m.date = rest[j]))
            = some ⟨r.prov, r.country, r.lat, r.lng, rest[j],
                r.cells.getD (i + (j + 1)) none⟩
          have hne : d ≠ rest[j] := by
            intro h
            exact hnd2.1 (h ▸ List.getElem_mem hj2)
          show (rows.map _ ++ meltAux rows rest (i + 1)).find? _ = _
          rw [List.find?_append, find?_block_none rows r.idTup d rest[j] i hne]
          have := ih (i + 1) j hj2 hnd2.2
          rw [show i + (j + 1) = (i + 1) + j by omega]
          simpa using this

set_option maxHeartbeats 1000000 in
/-- C10 (amended): melting a wide table and re-widening the records (grouping
by the full identifier tuple, in order of first appearance) recovers the
original table, provided the table has at least one date column with
pairwise-distinct headers, at least one row, pairwise-distinct row identifier
tuples, and one cell per date column in each row.  Without distinct row
identifiers the reshaping is lossy (see the counterexample). -/
theorem C10_reshape_widen_roundtrip (t : WideTable) (hrows : t.rows ≠ [])
    (hds : t.dates ≠ []) (hndd : t.dates.Nodup)
    (hnid : (t.rows.map WideRow.idTup).Nodup)
    (hlen : ∀ r ∈ t.rows, r.cells.length = t.dates.length) :
    widen (reshapeJhu t) = t := by
  obtain ⟨dates, rows⟩ := t
  have h1 := dedup_melt_dates dates rows hrows hndd
  have h2 := dedup_melt_ids dates rows hds hnid
  show WideTable.mk _ _ = _
  rw [WideTable.mk.injEq]
  refine ⟨h1, ?_⟩
  rw [h2, List.map_map]
  refine (List.map_congr_left ?_).trans (List.map_id rows)
  intro r hrmem
  obtain ⟨pv, ct, la, lg, cs⟩ := r
  show (⟨pv, ct, la, lg,
      (dedupKeep ((reshapeJhu ⟨dates, rows⟩).map (fun m => m.date))).map
        (fun d =>
          match (reshapeJhu ⟨dates, rows⟩).find?
              (fun m => decide
                (m.idTup = WideRow.idTup ⟨pv, ct, la, lg, cs⟩ ∧ m.date = d)) with
          | some m => m.value
          | none => none)⟩ : WideRow)
    = ⟨pv, ct, la, lg, cs⟩
  rw [WideRow.mk.injEq]
  refine ⟨rfl, rfl, rfl, rfl, ?_⟩
  rw [h1]
  apply List.ext_getElem
  · rw [List.length_map]
    exact (hlen ⟨pv, ct, la, lg, cs⟩ hrmem).symm
  · intro j hj1 hj2
    rw [List.getElem_map]
    have hjd : j < dates.length := by
      rw [List.length_map] at hj1
      exact hj1
    have hfind := find?_meltAux rows ⟨pv, ct, la, lg, cs⟩ hrmem hnid dates 0 j hjd hndd
    show (match (meltAux rows dates 0).find?
        (fun m => decide
          (m.idTup = WideRow.idTup ⟨pv, ct, la, lg, cs⟩ ∧ m.date = dates[j])) with
      | some m => m.value
      | none => none) = cs[j]
    rw [hfind]
    show cs.getD (0 + j) none = cs[j]
    rw [Nat.zero_add, List.getD_eq_getElem?_getD, List.getElem?_eq_getElem hj2]
    rfl

/-- Witness for C10: a two-row two-column wide table with distinct rows and
headers melts and re-widens back to itself. -/
theorem C10_reshape_widen_roundtrip_witness :
    widen (reshapeJhu ⟨["1", "2"], [⟨none, "A", none, none, [some 3, some 4]⟩,
        ⟨some "x", "B", none, none, [none, some 5]⟩]⟩)
      = ⟨["1", "2"], [⟨none, "A", none, none, [some 3, some 4]⟩,
        ⟨some "x", "B", none, none, [none, some 5]⟩]⟩ :=
  C10_reshape_widen_roundtrip
    ⟨["1", "2"], [⟨none, "A", none, none, [some 3, some 4]⟩,
      ⟨some "x", "B", none, none, [none, some 5]⟩]⟩
    (by decide) (by decide) (by decide) (by decide) (by decide)

/-- Counterexample to C10 as stated: a wide table with two identical rows
(legal under the stated WideSeriesTable invariants) does not survive the
round trip — re-widening merges the two rows into one. -/
theorem C10_counterexample :
    widen (reshapeJhu ⟨["1"], [⟨none, "A", none, none, [some 3]⟩,
        ⟨none, "A", none, none, [some 3]⟩]⟩)
      ≠ ⟨["1"], [⟨none, "A", none, none, [some 3]⟩,
        ⟨none, "A", none, none, [some 3]⟩]⟩ := by
  decide

theorem fillnaOwid_map_pair (t : List OwidRec) :
    (fillnaOwid t).map OwidRowF.pair = t.map OwidRec.pair := by
  simp only [fillnaOwid, List.map_map]
  apply List.map_congr_left
  intro a _
  rfl

theorem addVaccinationRate_map_pair (t : List OwidRowF) :
    (addVaccinationRate t).map OwidRowV.pair = t.map OwidRowF.pair := by
  simp only [addVaccinationRate, List.map_map]
  apply List.map_congr_left
  intro a _
  rfl

theorem dfJhu_map_pair (confirmed deaths recovered : List CDRec)
    (hr : (recovered.map CDRec.pair).Nodup) :
    (dfJhu confirmed deaths recovered).map JhuRow.pair
      = (innerJoin confirmed deaths
          (fun c d => decide (d.country = c.country ∧ d.date = c.date))
          (fun c d => (c, d))).map (fun cd => CDRec.pair cd.1) := by
  unfold dfJhu
  refine map_key_leftJoin_eq ?_ ?_ ?_ hr
  · intro cd rec hcd
    have h := of_decide_eq_true hcd
    unfold CDRec.pair
    rw [h.1, h.2]
  · intro _ _
    rfl
  · intro _
    rfl

theorem dfJhu_pair_nodup {confirmed deaths recovered : List CDRec}
    (hc : (confirmed.map CDRec.pair).Nodup) (hd : (deaths.map CDRec.pair).Nodup)
    (hr : (recovered.map CDRec.pair).Nodup) :
    ((dfJhu confirmed deaths recovered).map JhuRow.pair).Nodup := by
  rw [dfJhu_map_pair confirmed deaths recovered hr]
  refine innerJoin_key_nodup ?_ ?_ hc hd
  · intro c d hcd
    have h := of_decide_eq_true hcd
    unfold CDRec.pair
    rw [h.1, h.2]
  · intro _ _
    rfl

theorem owid_processed_pair_nodup {owid : List OwidRec} {countries : List String}
    (howid : (owid.map OwidRec.pair).Nodup) :
    ((addVaccinationRate (fillnaOwid (dfOwidFiltered owid countries))).map
      OwidRowV.pair).Nodup := by
  rw [addVaccinationRate_map_pair, fillnaOwid_map_pair]
  exact ((List.filter_sublist owid).map OwidRec.pair).nodup howid

theorem dfCombined_map_pair (confirmed deaths recovered : List CDRec)
    (owid : List OwidRec) (userInput : String)
    (hnd : ((addVaccinationRate (fillnaOwid
        (dfOwidFiltered owid (chooseCountries userInput)))).map OwidRowV.pair).Nodup) :
    (dfCombined confirmed deaths recovered owid userInput).map PanelRow.pair
      = (processedJhu confirmed deaths recovered userInput).map JhuRowE.pair := by
  unfold dfCombined
  rw [replaceCountries_processedJhu]
  refine map_key_leftJoin_eq ?_ ?_ ?_ hnd
  · intro j o hjo
    have h := of_decide_eq_true hjo
    unfold OwidRowV.pair JhuRowE.pair
    rw [h.1, h.2]
  · intro _ _
    rfl
  · intro _
    rfl

/-- C6 (amended): the panel has at most one row per (country, date) pair
provided each of the four long source tables has at most one record per
(country, date) — i.e. no sub-national duplication.  Province-level rows are
NOT summed to country level: when a country appears in several source rows
per date, the joins multiply the rows (see the counterexample), so
uniqueness genuinely depends on this hypothesis. -/
theorem C6_one_row_per_pair (confirmed deaths recovered : List CDRec)
    (owid : List OwidRec) (userInput : String)
    (h1 : (confirmed.map CDRec.pair).Nodup) (h2 : (deaths.map CDRec.pair).Nodup)
    (h3 : (recovered.map CDRec.pair).Nodup) (h4 : (owid.map OwidRec.pair).Nodup) :
    ((dfCombined confirmed deaths recovered owid userInput).map PanelRow.pair).Nodup := by
  rw [dfCombined_map_pair confirmed deaths recovered owid userInput
    (owid_processed_pair_nodup h4)]
  unfold processedJhu
  rw [addDeathRate_map_pair, addDiff_map_pair]
  rw [((sortJhu_perm _).map JhuRowF.pair).nodup_iff, fillnaJhu_map_pair]
  unfold dfJhuFiltered
  exact ((List.filter_sublist _).map JhuRow.pair).nodup (dfJhu_pair_nodup h1 h2 h3)

/-- Witness for C6: duplicate-free single-country sources yield a panel with
pairwise-distinct (country, date) pairs. -/
theorem C6_one_row_per_pair_witness :
    ((dfCombined [⟨"A", 1, some 10⟩, ⟨"A", 2, some 15⟩]
        [⟨"A", 1, some 1⟩, ⟨"A", 2, some 2⟩] []
        [⟨"A", 1, some 7, some 5, some 50, some "AAA"⟩] "A").map PanelRow.pair).Nodup :=
  C6_one_row_per_pair [⟨"A", 1, some 10⟩, ⟨"A", 2, some 15⟩]
    [⟨"A", 1, some 1⟩, ⟨"A", 2, some 2⟩] []
    [⟨"A", 1, some 7, some 5, some 50, some "AAA"⟩] "A"
    (by decide) (by decide) (by decide) (by decide)

/-- Counterexample to C6 as stated: two province rows of country A in the
wide cases and deaths sources are not summed to one country row — the
merge on (country, date) cross-joins them, and the final panel carries four
rows for the single pair (A, 1). -/
theorem C6_counterexample :
    (runFromWide parseDigits
        ⟨["1"], [⟨some "p1", "A", none, none, [some 10]⟩,
          ⟨some "p2", "A", none, none, [some 20]⟩]⟩
        ⟨["1"], [⟨some "p1", "A", none, none, [some 1]⟩,
          ⟨some "p2", "A", none, none, [some 2]⟩]⟩
        ⟨["1"], []⟩ [] "A").map (fun panel => panel.map PanelRow.pair)
      = some [("A", 1), ("A", 1), ("A", 1), ("A", 1)] := by
  decide

theorem parseRecs_eq_none {p : String → Option ℕ} :
    ∀ {recs : List MeltRec}, parseRecs p recs = none ↔ ∃ m ∈ recs, p m.date = none := by
  intro recs
  induction recs with
  | nil =>
      constructor
      · intro h
        exact absurd h (by simp [parseRecs])
      · rintro ⟨m, hm, _⟩
        exact absurd hm (List.not_mem_nil m)
  | cons r rest ih =>
      constructor
      · intro h
        unfold parseRecs at h
        rcases hr : p r.date with _ | d
        · exact ⟨r, List.mem_cons_self r rest, hr⟩
        · rw [hr] at h
          rcases hrest : parseRecs p rest with _ | l
          · obtain ⟨m, hm, hmd⟩ := ih.mp hrest
            exact ⟨m, List.mem_cons_of_mem r hm, hmd⟩
          · rw [hrest] at h
            exact Option.noConfusion h
      · rintro ⟨m, hm, hmd⟩
        unfold parseRecs
        rcases List.mem_cons.mp hm with rfl | hm2
        · rw [hmd]
        · rcases hr : p r.date with _ | d
          · rfl
          · have hrest : parseRecs p rest = none := ih.mpr ⟨m, hm2, hmd⟩
            rw [hrest]

theorem parseRecs_all_some {p : String → Option ℕ} :
    ∀ {recs : List MeltRec}, (∀ m ∈ recs, p m.date ≠ none) →
      ∃ l, parseRecs p recs = some l ∧ l.length = recs.length
        ∧ ∀ x ∈ l, ∃ m ∈ recs, x.prov = m.prov ∧ x.country = m.country
            ∧ x.lat = m.lat ∧ x.lng = m.lng := by
  intro recs
  induction recs with
  | nil => exact fun _ => ⟨[], rfl, rfl, by simp⟩
  | cons r rest ih =>
      intro hall
      have hr : p r.date ≠ none := hall r (List.mem_cons_self r rest)
      obtain ⟨d, hd⟩ := Option.ne_none_iff_exists.mp hr
      obtain ⟨l, hl, hlen, hids⟩ := ih (fun m hm => hall m (List.mem_cons_of_mem r hm))
      refine ⟨⟨r.prov, r.country, r.lat, r.lng, d, r.value⟩ :: l, ?_, by simp [hlen], ?_⟩
      · simp only [parseRecs, ← hd, hl]
      · intro x hx
        rcases List.mem_cons.mp hx with rfl | hx2
        · exact ⟨r, List.mem_cons_self r rest, rfl, rfl, rfl, rfl⟩
        · obtain ⟨m, hm, h⟩ := hids x hx2
          exact ⟨m, List.mem_cons_of_mem r hm, h⟩

theorem meltAux_length (rows : List WideRow) :
    ∀ (ds : List String) (i : ℕ),
      (meltAux rows ds i).length = ds.length * rows.length := by
  intro ds
  induction ds with
  | nil => intro i; simp [meltAux]
  | cons d rest ih =>
      intro i
      simp [meltAux, ih, Nat.succ_mul, Nat.add_comm]

theorem mem_meltAux_of_date {rows : List WideRow} {h : String} :
    ∀ {ds : List String} {i : ℕ}, h ∈ ds → rows ≠ [] →
      ∃ m ∈ meltAux rows ds i, m.date = h := by
  intro ds
  induction ds with
  | nil => intro i hh; exact absurd hh (List.not_mem_nil h)
  | cons d rest ih =>
      intro i hh hrows
      rcases List.mem_cons.mp hh with rfl | hh2
      · match rows, hrows with
        | r :: rtail, _ =>
            exact ⟨⟨r.prov, r.country, r.lat, r.lng, h, r.cells.getD i none⟩,
              List.mem_append_left _ (List.mem_map.mpr
                ⟨r, List.mem_cons_self r rtail, rfl⟩), rfl⟩
      · obtain ⟨m, hm, hmd⟩ := ih hh2 hrows
        exact ⟨m, List.mem_append_right _ hm, hmd⟩

theorem mem_meltAux_src {rows : List WideRow} {m : MeltRec} :
    ∀ {ds : List String} {i : ℕ}, m ∈ meltAux rows ds i →
      (∃ r ∈ rows, m.prov = r.prov ∧ m.country = r.country ∧ m.lat = r.lat
        ∧ m.lng = r.lng) ∧ m.date ∈ ds := by
  intro ds
  induction ds with
  | nil => intro i hm; exact absurd hm (List.not_mem_nil m)
  | cons d rest ih =>
      intro i hm
      rcases List.mem_append.mp hm with hm2 | hm2
      · obtain ⟨r, hr, rfl⟩ := List.mem_map.mp hm2
        exact ⟨⟨r, hr, rfl, rfl, rfl, rfl⟩, List.mem_cons_self d rest⟩
      · obtain ⟨hsrc, hdate⟩ := ih hm2
        exact ⟨hsrc, List.mem_cons_of_mem d hdate⟩

/-- C7 (amended): the reshaper-plus-date-parse stage fails with
`MalformedScheduleError` whenever some date-column header is unparseable and
at least one data row exists (the conversion runs over the melted column, so
with zero rows nothing is parsed); on a table with zero date columns it
returns the empty record sequence successfully rather than raising
`EmptyTableError`; and when every header parses it returns one record per
(row, date column) pair with the identifier columns preserved. -/
theorem C7_reshaper_error_behavior (p : String → Option ℕ) (t : WideTable) :
    (t.rows ≠ [] → (∃ h ∈ t.dates, p h = none) →
      reshapeParse p t = .error .malformedSchedule)
    ∧ (t.dates = [] → reshapeParse p t = .ok [])
    ∧ ((∀ h ∈ t.dates, p h ≠ none) →
        ∃ recs, reshapeParse p t = .ok recs
          ∧ recs.length = t.dates.length * t.rows.length
          ∧ ∀ x ∈ recs, ∃ r ∈ t.rows, x.prov = r.prov ∧ x.country = r.country
              ∧ x.lat = r.lat ∧ x.lng = r.lng) := by
  refine ⟨?_, ?_, ?_⟩
  · intro hrows ⟨h, hh, hpn⟩
    obtain ⟨m, hm, hmd⟩ := mem_meltAux_of_date hh hrows
    have hnone : parseRecs p (reshapeJhu t) = none :=
      parseRecs_eq_none.mpr ⟨m, hm, by rw [hmd]; exact hpn⟩
    unfold reshapeParse
    rw [hnone]
  · intro hd
    unfold reshapeParse reshapeJhu
    rw [hd]
    rfl
  · intro hall
    have hrecs : ∀ m ∈ reshapeJhu t, p m.date ≠ none := by
      intro m hm
      exact hall m.date (mem_meltAux_src hm).2
    obtain ⟨l, hl, hlen, hids⟩ := parseRecs_all_some hrecs
    refine ⟨l, ?_, ?_, ?_⟩
    · unfold reshapeParse
      rw [hl]
    · rw [hlen]
      exact meltAux_length t.rows t.dates 0
    · intro x hx
      obtain ⟨m, hm, h1, h2, h3, h4⟩ := hids x hx
      obtain ⟨⟨r, hr, g1, g2, g3, g4⟩, _⟩ := mem_meltAux_src hm
      exact ⟨r, hr, h1.trans g1, h2.trans g2, h3.trans g3, h4.trans g4⟩

/-- Witness for C7: an unparseable header `"x"` over one row aborts with
`MalformedScheduleError`; a table with zero date columns reshapes to the
empty record list; a parseable single-column single-row table produces
exactly one record. -/
theorem C7_reshaper_error_behavior_witness :
    reshapeParse parseDigits ⟨["x"], [⟨none, "A", none, none, [some 3]⟩]⟩
        = .error .malformedSchedule
      ∧ reshapeParse parseDigits ⟨[], [⟨none, "A", none, none, []⟩]⟩ = .ok []
      ∧ ∃ recs, reshapeParse parseDigits ⟨["1"], [⟨none, "A", none, none, [some 3]⟩]⟩
          = .ok recs ∧ recs.length = 1 * 1 := by
  refine ⟨?_, ?_, ?_⟩
  · exact (C7_reshaper_error_behavior parseDigits
      ⟨["x"], [⟨none, "A", none, none, [some 3]⟩]⟩).1 (by decide)
      ⟨"x", by decide, by decide⟩
  · exact (C7_reshaper_error_behavior parseDigits
      ⟨[], [⟨none, "A", none, none, []⟩]⟩).2.1 rfl
  · obtain ⟨recs, h1, h2, _⟩ := (C7_reshaper_error_behavior parseDigits
      ⟨["1"], [⟨none, "A", none, none, [some 3]⟩]⟩).2.2 (by decide)
    exact ⟨recs, h1, h2⟩

/-- Counterexample to C7 as stated: a table with zero date columns (and one
row) does not fail at all — the reshaper returns the empty record sequence,
so no `EmptyTableError` is ever raised. -/
theorem C7_counterexample :
    reshapeParse parseDigits ⟨[], [⟨none, "A", none, none, []⟩]⟩ = .ok []
      ∧ reshapeParse parseDigits ⟨[], [⟨none, "A", none, none, []⟩]⟩
          ≠ .error .emptyTable := by
  refine ⟨rfl, ?_⟩
  intro h
  have h2 : (Except.ok [] : Except ReshapeError (List LongRec))
      = .error .emptyTable := h
  exact Except.noConfusion h2

/-- C8 (amended): an empty selection string falls back to the default
country set; a name present in neither source matches zero rows — the
filtered cumulative frame and the combined panel contain no row for it —
and the run completes with an empty warning list: no `ZeroSelectionWarning`
(nor any other warning) is raised, because the notebook has no warning
mechanism for empty selections. -/
theorem C8_selection_contract (confirmed deaths recovered : List CDRec)
    (owid : List OwidRec) :
    chooseCountries "" = defaultCountries
    ∧ (∀ userInput n, n ∉ confirmed.map (fun c => c.country) →
        (dfJhuFiltered confirmed deaths recovered (chooseCountries userInput)).filter
            (fun jr => decide (jr.country = n)) = []
          ∧ (dfCombined confirmed deaths recovered owid userInput).filter
              (fun row => decide (row.country = n)) = [])
    ∧ (∀ userInput, (runTracker confirmed deaths recovered owid userInput).warnings = []) := by
  refine ⟨rfl, ?_, fun _ => rfl⟩
  intro ui n hn
  constructor
  · rw [List.filter_eq_nil_iff]
    intro jr hjr hdec
    have hcn := of_decide_eq_true hdec
    have h1 := (mem_dfJhuFiltered hjr).1
    obtain ⟨cc, hcc, hc, _⟩ := mem_dfJhu_pair h1
    exact hn (List.mem_map.mpr ⟨cc, hcc, by rw [← hc, hcn]⟩)
  · rw [List.filter_eq_nil_iff]
    intro row hrow hdec
    have hcn := of_decide_eq_true hdec
    obtain ⟨j, hj, hco, _⟩ := mem_dfCombined_decomp hrow
    obtain ⟨jr, hjr, h1, _⟩ := mem_processedJhu_source hj
    have h2 := (mem_dfJhuFiltered hjr).1
    obtain ⟨cc, hcc, hc, _⟩ := mem_dfJhu_pair h2
    exact hn (List.mem_map.mpr ⟨cc, hcc, by rw [← hc, ← h1, ← hco, hcn]⟩)

/-- Witness for C8: with a single-country (Kenya) source and the unknown
selection `"Atlantis"`, the empty-input fallback holds, the filters for
`"Atlantis"` match zero rows, and the run's warning list is empty. -/
theorem C8_selection_contract_witness :
    chooseCountries "" = defaultCountries
    ∧ (dfJhuFiltered [⟨"Kenya", 1, some 5⟩] [⟨"Kenya", 1, some 1⟩] []
        (chooseCountries "Atlantis")).filter
          (fun jr => decide (jr.country = "Atlantis")) = []
    ∧ (dfCombined [⟨"Kenya", 1, some 5⟩] [⟨"Kenya", 1, some 1⟩] [] [] "Atlantis").filter
        (fun row => decide (row.country = "Atlantis")) = []
    ∧ (runTracker [⟨"Kenya", 1, some 5⟩] [⟨"Kenya", 1, some 1⟩] [] [] "Atlantis").warnings
        = [] := by
  have h := C8_selection_contract [⟨"Kenya", 1, some 5⟩] [⟨"Kenya", 1, some 1⟩] [] []
  have h2 := h.2.1 "Atlantis" "Atlantis" (by decide)
  exact ⟨h.1, h2.1, h2.2, h.2.2 "Atlantis"⟩

/-- Counterexample to C8 as stated: with the unknown selection name
`"Atlantis"` the run completes with an empty panel and raises no warning at
all — in particular no `ZeroSelectionWarning` — because the notebook never
inspects the post-filter row count. -/
theorem C8_counterexample :
    (runTracker [⟨"Kenya", 1, some 5⟩] [⟨"Kenya", 1, some 1⟩] [] [] "Atlantis").panel = []
    ∧ (runTracker [⟨"Kenya", 1, some 5⟩] [⟨"Kenya", 1, some 1⟩] [] []
        "Atlantis").warnings = []
    ∧ "ZeroSelectionWarning" ∉ (runTracker [⟨"Kenya", 1, some 5⟩]
        [⟨"Kenya", 1, some 1⟩] [] [] "Atlantis").warnings := by
  refine ⟨?_, rfl, by simp [runTracker]⟩
  decide

/-- C9: for every pair of input sources (mixed countries allowed) and every
selection string — in particular whichever of the two names `"US"` and
`"United States"` the caller supplies — the cumulative filter matches zero
rows keyed `"US"`: the selection is translated through `jhu_to_owid` into
OWID vocabulary before being matched against the untranslated JHU keys, and
`"US"` is never in that translated list.  Consequently the combined panel
contains no `"US"` row either, and every panel row descends from a filtered
cumulative row whose key is not `"US"` — rows keyed `"US"` contribute
nothing to the panel while other selected countries survive. -/
theorem C9_us_rows_never_selected (confirmed deaths recovered : List CDRec)
    (owid : List OwidRec) (userInput : String) :
    (dfJhuFiltered confirmed deaths recovered (chooseCountries userInput)).filter
        (fun row => decide (row.country = "US")) = []
      ∧ (dfCombined confirmed deaths recovered owid userInput).filter
          (fun row => decide (row.country = "US")) = []
      ∧ ∀ row ∈ dfCombined confirmed deaths recovered owid userInput,
          ∃ jr ∈ dfJhuFiltered confirmed deaths recovered (chooseCountries userInput),
            jr.country ≠ "US" ∧ row.country = jr.country := by
  have hfil : ∀ jr ∈ dfJhuFiltered confirmed deaths recovered (chooseCountries userInput),
      jr.country ≠ "US" := by
    intro jr hjr hus
    have h2 := (mem_dfJhuFiltered hjr).2
    rw [hus] at h2
    exact us_not_mem_countriesJhu _ h2
  have hpanel : ∀ row ∈ dfCombined confirmed deaths recovered owid userInput,
      ∃ jr ∈ dfJhuFiltered confirmed deaths recovered (chooseCountries userInput),
        jr.country ≠ "US" ∧ row.country = jr.country := by
    intro row hrow
    obtain ⟨j, hj, hco, _⟩ := mem_dfCombined_decomp hrow
    obtain ⟨jr, hjr, h1, _⟩ := mem_processedJhu_source hj
    exact ⟨jr, hjr, hfil jr hjr, hco.trans h1⟩
  refine ⟨?_, ?_, hpanel⟩
  · rw [List.filter_eq_nil_iff]
    intro jr hjr hdec
    exact hfil jr hjr (of_decide_eq_true hdec)
  · rw [List.filter_eq_nil_iff]
    intro row hrow hdec
    obtain ⟨jr, hjr, hne, hco⟩ := hpanel row hrow
    apply hne
    rw [← hco]
    exact of_decide_eq_true hdec

/-- C4 (amended): in every combined panel row the three cumulative fields are
the source cells of the matching filtered cumulative row with missing cells
filled by zero; the rate-source fields of a row with no matching rate-source
record remain unset (not zero) — the zero-fill of `total_vaccinations` and
`people_fully_vaccinated` happens inside the rate-source table before the
left merge, so it reaches only rows with a match; and `population` is passed
through from the rate source unchanged, never defaulted to zero. -/
theorem C4_fill_rules (confirmed deaths recovered : List CDRec)
    (owid : List OwidRec) (userInput : String) :
    ∀ row ∈ dfCombined confirmed deaths recovered owid userInput,
      (∃ jr ∈ dfJhuFiltered confirmed deaths recovered (chooseCountries userInput),
        row.country = jr.country ∧ row.date = jr.date
          ∧ row.totalCases = jr.cases.getD 0 ∧ row.totalDeaths = jr.deaths.getD 0
          ∧ row.totalRecovered = jr.recovered.getD 0)
      ∧ ((∀ o ∈ dfOwidFiltered owid (chooseCountries userInput),
            ¬(o.location = row.country ∧ o.date = row.date)) →
          row.totalVaccinations = none ∧ row.peopleFullyVaccinated = none
            ∧ row.population = none ∧ row.vaccinationRate = none)
      ∧ (row.totalVaccinations = none
          ∨ ∃ src ∈ dfOwidFiltered owid (chooseCountries userInput),
              src.location = row.country ∧ src.date = row.date
                ∧ row.totalVaccinations = some (src.totalVaccinations.getD 0)
                ∧ row.peopleFullyVaccinated = some (src.peopleFullyVaccinated.getD 0)
                ∧ row.population = src.population) := by
  intro row hrow
  obtain ⟨j, hj, hco, hdt, hc, hd, hrec, _, _, _, howid⟩ := mem_dfCombined_decomp hrow
  refine ⟨?_, ?_, ?_⟩
  · obtain ⟨jr, hjr, h1, h2, h3, h4, h5⟩ := mem_processedJhu_source hj
    exact ⟨jr, hjr, hco.trans h1, hdt.trans h2, hc.trans h3, hd.trans h4, hrec.trans h5⟩
  · exact fun hno => no_match_dfCombined hrow hno
  · rcases howid with ⟨hv, _, _, _, _⟩ | ⟨o, ho, hl, hdd, hv, hp, hpop, _, _⟩
    · exact Or.inl hv
    · obtain ⟨src, hsrc, hl2, hd2, hv2, hp2, hpop2, _, _⟩ := mem_owidProcessed ho
      refine Or.inr ⟨src, hsrc, hl2 ▸ hl, hd2 ▸ hdd, ?_, ?_, ?_⟩
      · rw [hv, hv2]
      · rw [hp, hp2]
      · rw [hpop, hpop2]

/-- Witness for C4: a panel row with a matching rate-source record carries
the zero-filled vaccination fields and the untouched population. -/
theorem C4_fill_rules_witness :
    (∃ jr ∈ dfJhuFiltered [⟨"A", 1, some 10⟩] [⟨"A", 1, some 1⟩] []
        (chooseCountries "A"),
      (⟨"A", 1, 10, 1, 0, 0, 0, 1/10, some 7, some 5, some 50, some "AAA",
          some (.num 10)⟩ : PanelRow).country = jr.country
        ∧ (⟨"A", 1, 10, 1, 0, 0, 0, 1/10, some 7, some 5, some 50, some "AAA",
            some (.num 10)⟩ : PanelRow).date = jr.date
        ∧ (⟨"A", 1, 10, 1, 0, 0, 0, 1/10, some 7, some 5, some 50, some "AAA",
            some (.num 10)⟩ : PanelRow).totalCases = jr.cases.getD 0
        ∧ (⟨"A", 1, 10, 1, 0, 0, 0, 1/10, some 7, some 5, some 50, some "AAA",
            some (.num 10)⟩ : PanelRow).totalDeaths = jr.deaths.getD 0
        ∧ (⟨"A", 1, 10, 1, 0, 0, 0, 1/10, some 7, some 5, some 50, some "AAA",
            some (.num 10)⟩ : PanelRow).totalRecovered = jr.recovered.getD 0)
    ∧ ((⟨"A", 1, 10, 1, 0, 0, 0, 1/10, some 7, some 5, some 50, some "AAA",
          some (.num 10)⟩ : PanelRow).totalVaccinations = none
        ∨ ∃ src ∈ dfOwidFiltered [⟨"A", 1, some 7, some 5, some 50, some "AAA"⟩]
            (chooseCountries "A"),
          src.location = "A" ∧ src.date = 1
            ∧ (⟨"A", 1, 10, 1, 0, 0, 0, 1/10, some 7, some 5, some 50, some "AAA",
                some (.num 10)⟩ : PanelRow).totalVaccinations
              = some (src.totalVaccinations.getD 0)
            ∧ (⟨"A", 1, 10, 1, 0, 0, 0, 1/10, some 7, some 5, some 50, some "AAA",
                some (.num 10)⟩ : PanelRow).peopleFullyVaccinated
              = some (src.peopleFullyVaccinated.getD 0)
            ∧ (⟨"A", 1, 10, 1, 0, 0, 0, 1/10, some 7, some 5, some 50, some "AAA",
                some (.num 10)⟩ : PanelRow).population = src.population) := by
  have hpanel : dfCombined [⟨"A", 1, some 10⟩] [⟨"A", 1, some 1⟩] []
      [⟨"A", 1, some 7, some 5, some 50, some "AAA"⟩] "A"
      = [⟨"A", 1, 10, 1, 0, 0, 0, 1/10, some 7, some 5, some 50, some "AAA",
          some (.num 10)⟩] := by
    norm_num [dfCombined, processedJhu, dfJhuFiltered, dfJhu, innerJoin, leftJoin,
      chooseCountries, pySplitComma, pyStrip, countriesJhu, jhuToOwid, fillnaJhu,
      sortJhu, List.insertionSort, addDiff, addDeathRate, replaceCountries,
      dfOwidFiltered, fillnaOwid, addVaccinationRate, vaccRateVal, List.filter]
    simp
  have h := C4_fill_rules [⟨"A", 1, some 10⟩] [⟨"A", 1, some 1⟩] []
    [⟨"A", 1, some 7, some 5, some 50, some "AAA"⟩] "A"
    ⟨"A", 1, 10, 1, 0, 0, 0, 1/10, some 7, some 5, some 50, some "AAA", some (.num 10)⟩
    (by rw [hpanel]; exact List.mem_singleton.mpr rfl)
  exact ⟨h.1, h.2.2⟩

/-- Counterexample to C4 as stated: a (country, date) pair with no
rate-source match at all keeps `total_vaccinations` unset (`none`, pandas
NaN) in the combined panel — it is not filled with zero, because the
rate-source fill pass runs before the left merge. -/
theorem C4_counterexample :
    (dfCombined [⟨"A", 1, some 10⟩] [⟨"A", 1, some 1⟩] [] [] "A").map
        (fun r => r.totalVaccinations) = [none]
      ∧ (none : Option ℚ) ≠ some 0 := by
  constructor
  · have hpanel : dfCombined [⟨"A", 1, some 10⟩] [⟨"A", 1, some 1⟩] [] [] "A"
        = [⟨"A", 1, 10, 1, 0, 0, 0, 1/10, none, none, none, none, none⟩] := by
      norm_num [dfCombined, processedJhu, dfJhuFiltered, dfJhu, innerJoin, leftJoin,
        chooseCountries, pySplitComma, pyStrip, countriesJhu, jhuToOwid, fillnaJhu,
        sortJhu, List.insertionSort, addDiff, addDeathRate, replaceCountries,
        dfOwidFiltered, fillnaOwid, addVaccinationRate, List.filter]
      simp
    rw [hpanel]
    rfl
  · simp

/-- C5 (amended): a panel row's `vaccination_rate` is the float value of
`(people_fully_vaccinated / population) * 100`: unset (NaN or no value at
all) whenever `population` is unset, and the exact rational
`(q / p) * 100` whenever `population` is a set positive `p` — but a set
non-positive population is NOT mapped to an unset rate: the code divides
unconditionally, so a negative population yields a set (negative) number
and a zero population with positive numerator yields infinity. -/
theorem C5_vaccination_rate_cases (confirmed deaths recovered : List CDRec)
    (owid : List OwidRec) (userInput : String) :
    ∀ row ∈ dfCombined confirmed deaths recovered owid userInput,
      (row.population = none →
        row.vaccinationRate = none ∨ row.vaccinationRate = some .nan)
      ∧ (∀ p, row.population = some p →
          ∃ q, row.peopleFullyVaccinated = some q
            ∧ row.vaccinationRate = some (vaccRateVal q (some p))
            ∧ (0 < p → row.vaccinationRate = some (.num (q / p * 100)))) := by
  intro row hrow
  obtain ⟨j, hj, _, _, _, _, _, _, _, _, howid⟩ := mem_dfCombined_decomp hrow
  rcases howid with ⟨_, _, hpop, _, hv⟩ | ⟨o, ho, _, _, _, hp, hpop, _, hv⟩
  · constructor
    · intro _
      exact Or.inl hv
    · intro p hps
      rw [hpop] at hps
      exact absurd hps (by simp)
  · obtain ⟨src, _, _, _, _, hp2, hpop2, _, hv2⟩ := mem_owidProcessed ho
    constructor
    · intro hnone
      refine Or.inr ?_
      rw [hv, hv2]
      rw [hpop, hpop2] at hnone
      rw [hnone]
      rfl
    · intro p hps
      refine ⟨o.peopleFullyVaccinated, hp, ?_, ?_⟩
      · rw [hv, hv2, hp2]
        rw [hpop, hpop2] at hps
        rw [hps]
      · intro hpos
        rw [hv, hv2, hp2]
        rw [hpop, hpop2] at hps
        rw [hps]
        simp [vaccRateVal, ne_of_gt hpos]

/-- Witness for C5: with a matched rate-source record carrying population 50
and 5 people fully vaccinated, the panel row's rate is the set value
`(5 / 50) * 100 = 10`. -/
theorem C5_vaccination_rate_cases_witness :
    ∃ q, (⟨"A", 1, 10, 1, 0, 0, 0, 1/10, some 7, some 5, some 50, some "AAA",
          some (.num 10)⟩ : PanelRow).peopleFullyVaccinated = some q
      ∧ (⟨"A", 1, 10, 1, 0, 0, 0, 1/10, some 7, some 5, some 50, some "AAA",
          some (.num 10)⟩ : PanelRow).vaccinationRate
        = some (vaccRateVal q (some 50))
      ∧ ((0 : ℚ) < 50 →
          (⟨"A", 1, 10, 1, 0, 0, 0, 1/10, some 7, some 5, some 50, some "AAA",
            some (.num 10)⟩ : PanelRow).vaccinationRate
          = some (.num (q / 50 * 100))) := by
  have hpanel : dfCombined [⟨"A", 1, some 10⟩] [⟨"A", 1, some 1⟩] []
      [⟨"A", 1, some 7, some 5, some 50, some "AAA"⟩] "A"
      = [⟨"A", 1, 10, 1, 0, 0, 0, 1/10, some 7, some 5, some 50, some "AAA",
          some (.num 10)⟩] := by
    norm_num [dfCombined, processedJhu, dfJhuFiltered, dfJhu, innerJoin, leftJoin,
      chooseCountries, pySplitComma, pyStrip, countriesJhu, jhuToOwid, fillnaJhu,
      sortJhu, List.insertionSort, addDiff, addDeathRate, replaceCountries,
      dfOwidFiltered, fillnaOwid, addVaccinationRate, vaccRateVal, List.filter]
    simp
  have h := C5_vaccination_rate_cases [⟨"A", 1, some 10⟩] [⟨"A", 1, some 1⟩] []
    [⟨"A", 1, some 7, some 5, some 50, some "AAA"⟩] "A"
    ⟨"A", 1, 10, 1, 0, 0, 0, 1/10, some 7, some 5, some 50, some "AAA", some (.num 10)⟩
    (by rw [hpanel]; exact List.mem_singleton.mpr rfl)
  exact h.2 50 rfl

/-- Counterexample to C5 as stated: a set, negative population (here `-1`)
does not leave `vaccination_rate` unset — the row carries the set numeric
value `(5 / -1) * 100 = -500`. -/
theorem C5_counterexample :
    (dfCombined [⟨"A", 1, some 10⟩] [⟨"A", 1, some 1⟩] []
        [⟨"A", 1, some 7, some 5, some (-1), some "AAA"⟩] "A").map
      (fun r => (r.population, r.vaccinationRate))
      = [(some (-1), some (.num (-500)))]
    ∧ FVal.num (-500) ≠ FVal.nan := by
  constructor
  · have hpanel : dfCombined [⟨"A", 1, some 10⟩] [⟨"A", 1, some 1⟩] []
        [⟨"A", 1, some 7, some 5, some (-1), some "AAA"⟩] "A"
        = [⟨"A", 1, 10, 1, 0, 0, 0, 1/10, some 7, some 5, some (-1), some "AAA",
            some (.num (-500))⟩] := by
      norm_num [dfCombined, processedJhu, dfJhuFiltered, dfJhu, innerJoin, leftJoin,
        chooseCountries, pySplitComma, pyStrip, countriesJhu, jhuToOwid, fillnaJhu,
        sortJhu, List.insertionSort, addDiff, addDeathRate, replaceCountries,
        dfOwidFiltered, fillnaOwid, addVaccinationRate, vaccRateVal, List.filter]
      simp
    rw [hpanel]
    rfl
  · simp

/-- Witness for C9 at a mixed source (one `"US"` row and one `"Kenya"` row
in cases and deaths) with the selection naming `"US"`, `"United States"` and
`"Kenya"`: the `"US"` filter matches zero rows, yet the Kenya row survives
into the panel and descends from a non-`"US"` filtered row. -/
theorem C9_us_rows_never_selected_witness :
    (⟨"Kenya", 1, 3, 1, 0, 0, 0, 1/3, none, none, none, none, none⟩ : PanelRow)
        ∈ dfCombined [⟨"US", 1, some 5⟩, ⟨"Kenya", 1, some 3⟩]
          [⟨"US", 1, some 1⟩, ⟨"Kenya", 1, some 1⟩] [] [] "US,United States,Kenya"
      ∧ (dfJhuFiltered [⟨"US", 1, some 5⟩, ⟨"Kenya", 1, some 3⟩]
          [⟨"US", 1, some 1⟩, ⟨"Kenya", 1, some 1⟩] []
          (chooseCountries "US,United States,Kenya")).filter
            (fun row => decide (row.country = "US")) = []
      ∧ ∃ jr ∈ dfJhuFiltered [⟨"US", 1, some 5⟩, ⟨"Kenya", 1, some 3⟩]
            [⟨"US", 1, some 1⟩, ⟨"Kenya", 1, some 1⟩] []
            (chooseCountries "US,United States,Kenya"),
          jr.country ≠ "US"
            ∧ (⟨"Kenya", 1, 3, 1, 0, 0, 0, 1/3, none, none, none, none, none⟩ :
                PanelRow).country = jr.country := by
  have hpanel : dfCombined [⟨"US", 1, some 5⟩, ⟨"Kenya", 1, some 3⟩]
      [⟨"US", 1, some 1⟩, ⟨"Kenya", 1, some 1⟩] [] [] "US,United States,Kenya"
      = [⟨"Kenya", 1, 3, 1, 0, 0, 0, 1/3, none, none, none, none, none⟩] := by
    norm_num [dfCombined, processedJhu, dfJhuFiltered, dfJhu, innerJoin, leftJoin,
      chooseCountries, pySplitComma, pyStrip, isPySpace, countriesJhu, jhuToOwid,
      fillnaJhu, sortJhu, List.insertionSort, List.orderedInsert, addDiff,
      addDeathRate, replaceCountries, dfOwidFiltered, fillnaOwid,
      addVaccinationRate, List.filter]
    simp
  have hmem : (⟨"Kenya", 1, 3, 1, 0, 0, 0, 1/3, none, none, none, none, none⟩ : PanelRow)
      ∈ dfCombined [⟨"US", 1, some 5⟩, ⟨"Kenya", 1, some 3⟩]
        [⟨"US", 1, some 1⟩, ⟨"Kenya", 1, some 1⟩] [] [] "US,United States,Kenya" := by
    rw [hpanel]
    exact List.mem_singleton.mpr rfl
  have h := C9_us_rows_never_selected [⟨"US", 1, some 5⟩, ⟨"Kenya", 1, some 3⟩]
    [⟨"US", 1, some 1⟩, ⟨"Kenya", 1, some 1⟩] [] [] "US,United States,Kenya"
  exact ⟨hmem, h.1, h.2.2 _ hmem⟩

end Covid
